import Mathlib

/-!
# BUGx: a shallow embedding of the mode-pipeline executor and the menu parser

Sources embedded here:
* `internal/runner/modes.go` : `RunModes`, the eight mode chains and the shared helpers;
* `cmd/bugx/main.go`         : `normalizeAndOrderModes`, `normalizeTarget`;
* `internal/ui/menu.go`      : `readLine`, `ReadModes`.

Go strings are modelled by Lean strings (sequences of Unicode code points), Go `int`
by `Int`, a Go `error` by `Option String` (`none` is the nil error).  The operating
system (PATH lookup, `os.Stat`, child processes, `os.RemoveAll`, the clock, ...) is a
record of functions over an arbitrary world type, so that every statement quantifies
over every behaviour of the environment.
-/

namespace BUGx

/-! ## The Go standard library, as far as the program uses it -/

namespace Go

/-- Go `unicode.IsSpace`: the white space code points. -/
def isSpace (c : Char) : Bool :=
  let n := c.toNat
  (9 ≤ n && n ≤ 13) || n = 32 || n = 0x85 || n = 0xA0 || n = 0x1680 ||
  (0x2000 ≤ n && n ≤ 0x200A) || n = 0x2028 || n = 0x2029 || n = 0x202F ||
  n = 0x205F || n = 0x3000

/-- Go `strings.TrimSpace` on the code points of a string. -/
def trimSpaceChars (s : List Char) : List Char :=
  (s.rdropWhile isSpace).dropWhile isSpace

/-- Go `strings.TrimSpace`. -/
def trimSpace (s : String) : String := String.mk (trimSpaceChars s.data)

/-- Go `strings.TrimRight(s, cutset)`. -/
def trimRight (s : String) (cutset : List Char) : String :=
  String.mk (s.data.rdropWhile (fun c => decide (c ∈ cutset)))

/-- Go `strings.HasPrefix`. -/
def hasPrefix (s p : String) : Bool := p.data.isPrefixOf s.data

/-- Splitting a code point sequence at every occurrence of `sep`; the result is
never empty (the empty sequence gives one empty piece), as with Go `strings.Split`
for a one-character separator. -/
def splitChars (sep : Char) : List Char → List (List Char)
  | [] => [[]]
  | c :: cs =>
    if c = sep then [] :: splitChars sep cs
    else
      match splitChars sep cs with
      | [] => [[c]]
      | t :: ts => (c :: t) :: ts

/-- Go `strings.Split(s, sep)` for a one-character separator. -/
def split (s : String) (sep : Char) : List String :=
  (splitChars sep s.data).map String.mk

/-- Cutting `s` at the first occurrence of `sep`: the text before it and the text
after it, or `none` when `sep` does not occur. -/
def cutChars (sep : List Char) : List Char → Option (List Char × List Char)
  | [] => if sep = [] then some ([], []) else none
  | c :: cs =>
    if sep.isPrefixOf (c :: cs) then some ([], (c :: cs).drop sep.length)
    else (cutChars sep cs).map (fun p => (c :: p.1, p.2))

/-- Go `strings.SplitN(s, sep, 2)` for a non-empty separator: one piece when `sep`
does not occur, otherwise the text before and after its first occurrence. -/
def splitN2 (s sep : String) : List String :=
  match cutChars sep.data s.data with
  | none => [s]
  | some (a, b) => [String.mk a, String.mk b]

/-- Go `strings.Index(s, c)` for a one-character needle: `none` stands for `-1`. -/
def indexChar (s : List Char) (c : Char) : Option Nat :=
  match s with
  | [] => none
  | d :: ds => if d = c then some 0 else (indexChar ds c).map (· + 1)

/-- Go `strings.Join(elems, sep)`. -/
def join (elems : List String) (sep : String) : String := sep.intercalate elems

/-- Go `strings.ReplaceAll(s, old, new)` for a one-character `old`. -/
def replaceAllChar (s : List Char) (old : Char) (new : List Char) : List Char :=
  s.flatMap (fun c => if c = old then new else [c])

/-- Go `strings.ToLower` on ASCII text: the letters A-Z are lower-cased and every other
character is kept. Go also lower-cases the capitals outside ASCII (É becomes é), which
this definition keeps, so it equals the Go function exactly on the strings without a
capital letter outside A-Z. The only caller, `buildModeResultsDir`, is given one of the
eight mode constants of the chains, which are ASCII and lower-case already. -/
def toLower (s : String) : String := String.mk (s.data.map Char.toLower)

/-- Go `fmt.Sprintf("%d", n)`. -/
def sprintInt (n : Int) : String := toString n

/-- The value of a run of decimal digits, `none` when a character is not a digit. -/
def digitsValue : List Char → Nat → Option Nat
  | [], acc => some acc
  | c :: cs, acc =>
    if 48 ≤ c.toNat ∧ c.toNat ≤ 57 then digitsValue cs (acc * 10 + (c.toNat - 48)) else none

/-- Go `strconv.Atoi` on a 64-bit platform: an optional sign, then at least one
decimal digit, the value within the range of `int`; `none` stands for a non-nil error. -/
def atoi (s : String) : Option Int :=
  let body (ds : List Char) (neg : Bool) : Option Int :=
    if ds = [] then none
    else
      match digitsValue ds 0 with
      | none => none
      | some v =>
        let n : Int := if neg then -(v : Int) else (v : Int)
        if -(2 : Int) ^ 63 ≤ n ∧ n < (2 : Int) ^ 63 then some n else none
  match s.data with
  | [] => none
  | c :: cs =>
    if c = '-' then body cs true
    else if c = '+' then body cs false
    else body (c :: cs) false

/-- One step of Go `path/filepath.Clean` (Unix) over the path elements seen so far,
kept innermost first: empty and `.` elements are dropped, `..` removes the previous
real element, is dropped at the root, and is kept in a relative path that has nothing
left to remove. -/
def cleanPush (rooted : Bool) (stack : List (List Char)) (comp : List Char) :
    List (List Char) :=
  if comp = [] ∨ comp = ['.'] then stack
  else if comp = ['.', '.'] then
    match stack with
    | [] => if rooted then [] else [['.', '.']]
    | top :: rest => if top = ['.', '.'] then comp :: top :: rest else rest
  else comp :: stack

/-- The cleaned elements of a path, outermost first. -/
def cleanElems (rooted : Bool) (comps : List (List Char)) : List (List Char) :=
  (comps.foldl (cleanPush rooted) []).reverse

/-- Elements joined by `/`. -/
def slashJoin : List (List Char) → List Char
  | [] => []
  | [c] => c
  | c :: d :: rest => c ++ '/' :: slashJoin (d :: rest)

/-- Go `path/filepath.Clean` (Unix). -/
def cleanChars (p : List Char) : List Char :=
  match p with
  | [] => ['.']
  | c :: _ =>
    let rooted : Bool := decide (c = '/')
    let body := slashJoin (cleanElems rooted (splitChars '/' p))
    if rooted then '/' :: body
    else if body = [] then ['.'] else body

/-- Go `path/filepath.Join` (Unix): leading empty elements are skipped, the rest is
joined by `/` and cleaned; the result is empty when every element is empty. -/
def filepathJoin (elems : List String) : String :=
  match elems.dropWhile (fun e => decide (e = "")) with
  | [] => ""
  | e :: es => String.mk (cleanChars (join (e :: es) "/").data)

end Go

/-- A plain file name: not empty, without `/`, and neither `.` nor `..`. -/
def plainName (n : List Char) : Bool :=
  decide (n ≠ []) && decide ('/' ∉ n) && decide (n ≠ ['.']) && decide (n ≠ ['.', '.'])

/-- The text that `filepath.Join(d, n)` puts before a plain name `n`. -/
def joinDir (d : List Char) : List Char :=
  match d with
  | [] => []
  | c :: _ =>
    let r := Go.cleanElems (decide (c = '/')) (Go.splitChars '/' d)
    (if c = '/' then ['/'] else []) ++ (if r = [] then [] else Go.slashJoin r ++ ['/'])

/-! ## `internal/runner/modes.go`: the pure helpers -/

/-- `stripPortAndPath` (modes.go 1189-1197): cut at the first `/`, then at the first
`:`, then trim white space. -/
def stripPortAndPath (s : String) : String :=
  let s1 : List Char :=
    match Go.indexChar s.data '/' with
    | some i => s.data.take i
    | none => s.data
  let s2 : List Char :=
    match Go.indexChar s1 ':' with
    | some i => s1.take i
    | none => s1
  Go.trimSpace (String.mk s2)

/-- `extractDomain` (modes.go 1173-1187). -/
def extractDomain (raw : String) : String :=
  let raw := Go.trimSpace raw
  if raw = "" then ""
  else if !Go.hasPrefix raw "http://" && !Go.hasPrefix raw "https://" then
    stripPortAndPath raw
  else
    match Go.splitN2 raw "://" with
    | [_, rest] => stripPortAndPath rest
    | _ => ""

/-- The replacer of `sanitizeForPath`: each of the nine characters becomes `_`. -/
def sanitizeChar (c : Char) : Char :=
  if c = '/' ∨ c = '\\' ∨ c = ':' ∨ c = '*' ∨ c = '?' ∨ c = '"' ∨ c = '<' ∨ c = '>' ∨ c = '|'
  then '_' else c

/-- `sanitizeForPath` (modes.go 1199-1217). -/
def sanitizeForPath (s : String) : String :=
  let s := Go.trimSpace s
  if s = "" then "target" else String.mk (s.data.map sanitizeChar)

/-- The single quote character. -/
def quoteChar : Char := Char.ofNat 39

/-- `escapeShell` (modes.go 1219-1226): the four characters put in place of a single
quote are quote, backslash, quote, quote. -/
def escapeShell (s : String) : String :=
  if s = "" then String.mk [quoteChar, quoteChar]
  else
    let escaped := Go.replaceAllChar s.data quoteChar [quoteChar, '\\', quoteChar, quoteChar]
    String.mk (quoteChar :: escaped ++ [quoteChar])

/-- `maxInt` (modes.go 1228-1234). -/
def maxInt (a b : Int) : Int := if a > b then a else b

/-- The loop of `unique`: `seen` is the key set of the Go map, `out` the slice built. -/
def uniqueLoop : List String → List String → List String → List String
  | [], _, out => out
  | v :: vs, seen, out =>
    if v = "" then uniqueLoop vs seen out
    else if v ∈ seen then uniqueLoop vs seen out
    else uniqueLoop vs (v :: seen) (out ++ [v])

/-- `unique` (modes.go 1236-1254). -/
def unique (list : List String) : List String :=
  if list.length = 0 then list else uniqueLoop list [] []

/-! ## Go maps used as sets -/

/-- The order in which a Go `range` over a map visits its keys: the language leaves
it unspecified, so it is an arbitrary permutation of the keys. -/
structure RangeOrder where
  visit : {α : Type} → List α → List α
  perm : ∀ {α : Type} (l : List α), (visit l).Perm l

/-- The identity visiting order. -/
def RangeOrder.inOrder : RangeOrder := ⟨fun l => l, fun l => List.Perm.refl l⟩

/-- The reversed visiting order. -/
def RangeOrder.backwards : RangeOrder := ⟨fun l => l.reverse, fun l => List.reverse_perm l⟩

/-- Adding a key to a Go map used as a set, the keys kept in first-insertion order. -/
def mapInsert {α : Type} [DecidableEq α] (keys : List α) (k : α) : List α :=
  if k ∈ keys then keys else keys ++ [k]

/-! ## The environment of the runner -/

/-- The operating system as the runner sees it, over a world type `σ`.
* `lookPath w name`   : `exec.LookPath(name)` returns a nil error;
* `stat w path`       : `os.Stat(path)`, `none` on error, otherwise whether it is a directory;
* `run w name args`   : `exec.Command(name, args...).Run()`, its error and the world after it;
* `mkdirAll`, `removeAll` : `os.MkdirAll`, `os.RemoveAll` (their errors are discarded by the runner);
* `unixNano`          : `time.Now().UnixNano()`;
* `tempDir`           : `os.TempDir()`;
* `userHomeDir`       : `user.Current()`, `none` on error, otherwise the `HomeDir` field;
* `getenv`            : `os.Getenv`. -/
structure OS (σ : Type) where
  lookPath : σ → String → Bool
  stat : σ → String → Option Bool
  run : σ → String → List String → Option String × σ
  mkdirAll : σ → String → σ
  removeAll : σ → String → σ
  unixNano : σ → Int
  tempDir : σ → String
  userHomeDir : σ → Option String
  getenv : σ → String → String

/-- What the runner does that can be observed: a line written to standard output, or
a child process run to completion (with the world it started in, and its error). -/
inductive Event (σ : Type) where
  | print (line : String)
  | exec (before : σ) (name : String) (args : List String) (err : Option String)
  deriving DecidableEq

/-- The state of a chain while it runs: the world, what was observed so far, and the
local slice `used`. -/
structure Chain (σ : Type) where
  world : σ
  trace : List (Event σ)
  used : List String

/-- What a chain leaves behind: the returned slice, the world, and what was observed. -/
structure ChainResult (σ : Type) where
  tools : List String
  world : σ
  trace : List (Event σ)

section Runner

variable {σ : Type}

/-- `fmt.Println(line)`, and `fmt.Printf` of a format ending in a newline. -/
def println (line : String) (st : Chain σ) : Chain σ :=
  { st with trace := st.trace ++ [Event.print line] }

/-- `hasTool` (modes.go 1090-1093). -/
def hasTool (os : OS σ) (w : σ) (name : String) : Bool := os.lookPath w name

/-- `fileExists` (modes.go 1114-1123). -/
def fileExists (os : OS σ) (w : σ) (path : String) : Bool :=
  if path = "" then false
  else
    match os.stat w path with
    | none => false
    | some isDir => !isDir

/-- `chooseFirstExisting` (modes.go 1126-1133). -/
def chooseFirstExisting (os : OS σ) (w : σ) : List String → String
  | [] => ""
  | p :: ps => if fileExists os w p then p else chooseFirstExisting os w ps

/-- `runCommandLive` (modes.go 1096-1102). -/
def runCommandLive (os : OS σ) (name : String) (args : List String) (st : Chain σ) :
    Option String × Chain σ :=
  let st := println ("[CMD] " ++ name ++ " " ++ Go.join args " ") st
  let r := os.run st.world name args
  (r.1, { st with world := r.2, trace := st.trace ++ [Event.exec st.world name args r.1] })

/-- `runShellLive` (modes.go 1105-1111). -/
def runShellLive (os : OS σ) (line : String) (st : Chain σ) : Option String × Chain σ :=
  let st := println ("[SHELL] " ++ line) st
  let r := os.run st.world "sh" ["-c", line]
  (r.1, { st with world := r.2,
                  trace := st.trace ++ [Event.exec st.world "sh" ["-c", line] r.1] })

/-- `buildTempDir` (modes.go 1136-1143). -/
def buildTempDir (os : OS σ) (w : σ) (domain mode : String) : String :=
  let safeDomain := sanitizeForPath domain
  let mode := if mode = "" then "run" else mode
  let ts := os.unixNano w
  Go.filepathJoin [os.tempDir w, "BUGx-" ++ mode ++ "-" ++ safeDomain ++ "-" ++ Go.sprintInt ts]

/-- `cleanupTempDir` (modes.go 1146-1151). -/
def cleanupTempDir (os : OS σ) (dir : String) (w : σ) : σ :=
  if dir = "" then w else os.removeAll w dir

/-- `buildModeResultsDir` (modes.go 1154-1171). -/
def buildModeResultsDir (os : OS σ) (w : σ) (mode domain : String) : String :=
  let mode := if mode = "" then "misc" else mode
  let domain := sanitizeForPath domain
  let base : String :=
    match os.userHomeDir w with
    | some home => if home ≠ "" then home else os.getenv w "HOME"
    | none => os.getenv w "HOME"
  let base := if base = "" then "." else base
  Go.filepathJoin [base, "BUGx", "results", Go.toLower mode, domain]

/-- `buildBugxBaseDir` (modes.go 1279-1287). -/
def buildBugxBaseDir (os : OS σ) (w : σ) : String :=
  let fromEnv : String :=
    if os.getenv w "HOME" ≠ "" then Go.filepathJoin [os.getenv w "HOME", "BUGx"] else "BUGx"
  match os.userHomeDir w with
  | some home => if home ≠ "" then Go.filepathJoin [home, "BUGx"] else fromEnv
  | none => fromEnv

/-- `logStep` (modes.go 1258-1260). -/
def logStep (mode tool : String) (args : List String) (st : Chain σ) : Chain σ :=
  println ("[" ++ mode ++ "] RUN -> " ++ tool ++ " " ++ Go.join args " ") st

/-- `logShell` (modes.go 1262-1264). -/
def logShell (mode line : String) (st : Chain σ) : Chain σ :=
  println ("[" ++ mode ++ "] SHELL -> " ++ line) st

/-- `logFail` (modes.go 1266-1268); `err` is the text of the error. -/
def logFail (mode tool err : String) (st : Chain σ) : Chain σ :=
  println ("[" ++ mode ++ "] [FAIL] " ++ tool ++ ": " ++ err) st

/-- `logMissing` (modes.go 1270-1272). -/
def logMissing (mode tool : String) (st : Chain σ) : Chain σ :=
  println ("[" ++ mode ++ "] [WARN] Tool \x27" ++ tool ++
    "\x27 tidak ditemukan. Step terkait dilewati.") st

/-- `logInfo` (modes.go 1274-1276). -/
def logInfo (mode msg : String) (st : Chain σ) : Chain σ :=
  println ("[" ++ mode ++ "] [INFO] " ++ msg) st

/-- The pattern `if err == nil { used = append(used, tool) } else { logFail(...) }`
that follows every invocation. -/
def noteOutcome (mode tool failName : String) (r : Option String × Chain σ) : Chain σ :=
  match r.1 with
  | none => { r.2 with used := r.2.used ++ [tool] }
  | some err => logFail mode failName err r.2

/-- The optional thread flag: `if speed > 0 { args = append(args, flag, "%d") }`. -/
def speedArgs (flag : String) (speed : Int) : List String :=
  if speed > 0 then [flag, Go.sprintInt speed] else []

/-! ### The steps of a chain

The eight chain functions of modes.go are built from the same `if` blocks, which
differ only by the strings they carry.  Each block below is one such `if` statement;
its parameters are the strings that vary between the chains. -/

/-- The subfinder block (modes.go 113-127 for XSS, and the same lines of each chain). -/
def subfinderStep (os : OS σ) (label domain subs : String) (speed : Int) (st : Chain σ) :
    Chain σ :=
  if hasTool os st.world "subfinder" then
    let args := ["-d", domain, "-o", subs] ++ speedArgs "-t" speed
    let st := logStep label "subfinder" args st
    noteOutcome label "subfinder" "subfinder" (runCommandLive os "subfinder" args st)
  else logMissing label "subfinder" st

/-- The first httpx block, subs to hosts (modes.go 129-147 for XSS); `extra` is the
`-td` flag of the CMS chain (modes.go 944-949), `stepName` the name given to `logStep`. -/
def httpxSubsStep (os : OS σ) (label stepName : String) (extra : List String)
    (subs hosts : String) (speed : Int) (st : Chain σ) : Chain σ :=
  if hasTool os st.world "httpx" && fileExists os st.world subs then
    let args := ["-l", subs, "-o", hosts, "-mc", "200"] ++ extra ++ speedArgs "-t" speed
    let st := logStep label stepName args st
    noteOutcome label "httpx" "httpx" (runCommandLive os "httpx" args st)
  else if !hasTool os st.world "httpx" then logMissing label "httpx" st
  else st

/-- The shell line of the gau step. -/
def gauLine (hosts gauOut : String) (speed : Int) : String :=
  "cat " ++ escapeShell hosts ++ " | gau --threads " ++ Go.sprintInt (maxInt speed 1) ++
    " --verbose > " ++ escapeShell gauOut

/-- The shell line of the gf step. -/
def gfLine (tag gauOut gfOut : String) : String :=
  "cat " ++ escapeShell gauOut ++ " | gf " ++ tag ++ " > " ++ escapeShell gfOut

/-- The gf block nested in the gau block (modes.go 163-177 for XSS). -/
def gfStep (os : OS σ) (label tag gauOut gfOut : String) (st : Chain σ) : Chain σ :=
  if hasTool os st.world "gf" && fileExists os st.world gauOut then
    let lineGF := gfLine tag gauOut gfOut
    let st := logShell label lineGF st
    noteOutcome label "gf" ("gf " ++ tag) (runShellLive os lineGF st)
  else if !hasTool os st.world "gf" then logMissing label "gf" st
  else st

/-- The `else` branch of the gau block, present in the XSS and SQLi chains only
(modes.go 178-188 and 352-362). -/
def gauSkipped (os : OS σ) (label tag hosts : String) (st : Chain σ) : Chain σ :=
  let st := if !fileExists os st.world hosts then
      logInfo label ("hosts.txt tidak ada, lewati gau+gf " ++ tag) st else st
  let st := if !hasTool os st.world "gau" then logMissing label "gau" st else st
  if !hasTool os st.world "gf" then logMissing label "gf" st else st

/-- The gau block with the gf block inside it (modes.go 149-188 for XSS, 469-498 for
LFI); `withElse` tells whether the chain has the `else` branch. -/
def gauGfStep (os : OS σ) (label tag : String) (withElse : Bool)
    (tmpDir hosts gfOut : String) (speed : Int) (st : Chain σ) : Chain σ :=
  if hasTool os st.world "gau" && fileExists os st.world hosts then
    let gauOut := Go.filepathJoin [tmpDir, "gau_" ++ tag ++ ".txt"]
    let line := gauLine hosts gauOut speed
    let st := logShell label line st
    let st := noteOutcome label "gau" ("gau " ++ tag) (runShellLive os line st)
    gfStep os label tag gauOut gfOut st
  else if withElse then gauSkipped os label tag hosts st
  else st

/-- The second httpx block, gf output to clean (modes.go 190-206 for XSS). -/
def httpxGfStep (os : OS σ) (label tag gfOut clean : String) (speed : Int)
    (st : Chain σ) : Chain σ :=
  if hasTool os st.world "httpx" && fileExists os st.world gfOut then
    let args := ["-l", gfOut, "-o", clean, "-mc", "200"] ++ speedArgs "-t" speed
    let st := logStep label ("httpx (gf_" ++ tag ++ "->clean)") args st
    noteOutcome label "httpx" ("httpx gf_" ++ tag) (runCommandLive os "httpx" args st)
  else st

/-- The argument vector of nuclei: `severity` is `--severity medium,high,critical` in
the XSS chain (modes.go 222-230) and empty in the others (modes.go 390-393). -/
def nucleiArgs (list : String) (severity : List String) (tags out : String) (speed : Int) :
    List String :=
  ["-l", list] ++ severity ++ ["-tags", tags, "-o", out] ++ speedArgs "-c" speed

/-- The nuclei block (modes.go 219-239 for XSS). -/
def nucleiStep (os : OS σ) (label list : String) (severity : List String)
    (tags resultsDir : String) (speed : Int) (st : Chain σ) : Chain σ :=
  if hasTool os st.world "nuclei" then
    let out := Go.filepathJoin [resultsDir, "nuclei.json"]
    let args := nucleiArgs list severity tags out speed
    let st := logStep label "nuclei" args st
    noteOutcome label "nuclei" "nuclei" (runCommandLive os "nuclei" args st)
  else logMissing label "nuclei" st

/-- The dalfox block of the XSS chain (modes.go 241-259). -/
def dalfoxStep (os : OS σ) (label list resultsDir : String) (speed : Int) (st : Chain σ) :
    Chain σ :=
  if hasTool os st.world "dalfox" then
    let out := Go.filepathJoin [resultsDir, "dalfox.json"]
    let args := ["file", list, "--skip-mining-all", "--custom-payload",
      Go.filepathJoin [buildBugxBaseDir os st.world, "wordlist", "xss.txt"],
      "-w", Go.sprintInt (maxInt speed 1), "-o", out]
    let st := logStep label "dalfox" args st
    noteOutcome label "dalfox" "dalfox" (runCommandLive os "dalfox" args st)
  else logMissing label "dalfox" st

/-- What varies between the eight chain functions.
* `label`       : the first argument of the logging helpers;
* `openBanner`, `closeBanner` : the two banner lines;
* `mode`        : the mode name given to `buildTempDir` and `buildModeResultsDir`, which
                  in modes 1-5 is also the tag in the file names and the gf pattern;
* `urlPhase`    : the chain has the gau, gf and second httpx blocks (modes 1-5);
* `gauElse`     : the gau block has its `else` branch (XSS and SQLi);
* `httpxName`, `httpxExtra` : the `logStep` name and extra flags of the first httpx;
* `noListMsg`   : the message logged when no candidate list exists;
* `severity`, `tags` : the nuclei arguments;
* `dalfox`      : the chain has the dalfox block (XSS). -/
structure ChainSpec where
  label : String
  openBanner : String
  closeBanner : String
  mode : String
  urlPhase : Bool
  gauElse : Bool
  httpxName : String
  httpxExtra : List String
  noListMsg : String
  severity : List String
  tags : String
  dalfox : Bool
  deriving DecidableEq

/-- The temporary directory of a chain started in world `w`. -/
def ChainSpec.tmpDir (c : ChainSpec) (os : OS σ) (w : σ) (target : String) : String :=
  buildTempDir os w (extractDomain target) c.mode

/-- The results directory of a chain started in world `w`. -/
def ChainSpec.resultsDir (c : ChainSpec) (os : OS σ) (w : σ) (target : String) : String :=
  buildModeResultsDir os w c.mode (extractDomain target)

/-- The staged file `subs.txt`. -/
def ChainSpec.subs (c : ChainSpec) (os : OS σ) (w : σ) (target : String) : String :=
  Go.filepathJoin [c.tmpDir os w target, "subs.txt"]

/-- The staged file `hosts.txt`. -/
def ChainSpec.hosts (c : ChainSpec) (os : OS σ) (w : σ) (target : String) : String :=
  Go.filepathJoin [c.tmpDir os w target, "hosts.txt"]

/-- The staged file `gau_<TAG>.txt`. -/
def ChainSpec.gauOut (c : ChainSpec) (os : OS σ) (w : σ) (target : String) : String :=
  Go.filepathJoin [c.tmpDir os w target, "gau_" ++ c.mode ++ ".txt"]

/-- The staged file `gf_<TAG>.txt`. -/
def ChainSpec.gfOut (c : ChainSpec) (os : OS σ) (w : σ) (target : String) : String :=
  Go.filepathJoin [c.tmpDir os w target, "gf_" ++ c.mode ++ ".txt"]

/-- The staged file `clean_<TAG>.txt`. -/
def ChainSpec.clean (c : ChainSpec) (os : OS σ) (w : σ) (target : String) : String :=
  Go.filepathJoin [c.tmpDir os w target, "clean_" ++ c.mode ++ ".txt"]

/-- The candidate lists of the scan, in the order tried: `gau_<TAG>.txt` then
`hosts.txt` in modes 1-5 (modes.go 211-212), `hosts.txt` then `subs.txt` in modes 6-8
(modes.go 870). -/
def ChainSpec.candidates (c : ChainSpec) (os : OS σ) (w : σ) (target : String) :
    List String :=
  if c.urlPhase then [c.gauOut os w target, c.hosts os w target]
  else [c.hosts os w target, c.subs os w target]

/-- The blocks of a chain before the list is chosen, started in world `w` after the
results directory was made. -/
def ChainSpec.collect (c : ChainSpec) (os : OS σ) (w : σ) (target : String) (speed : Int)
    (st : Chain σ) : Chain σ :=
  let st := subfinderStep os c.label (extractDomain target) (c.subs os w target) speed st
  let st := httpxSubsStep os c.label c.httpxName c.httpxExtra (c.subs os w target)
    (c.hosts os w target) speed st
  if c.urlPhase then
    let st := gauGfStep os c.label c.mode c.gauElse (c.tmpDir os w target)
      (c.hosts os w target) (c.gfOut os w target) speed st
    httpxGfStep os c.label c.mode (c.gfOut os w target) (c.clean os w target) speed st
  else st

/-- The blocks of a chain after a non-empty list was chosen. -/
def ChainSpec.scan (c : ChainSpec) (os : OS σ) (w : σ) (target : String) (speed : Int)
    (list : String) (st : Chain σ) : Chain σ :=
  let st := nucleiStep os c.label list c.severity c.tags (c.resultsDir os w target) speed st
  if c.dalfox then dalfoxStep os c.label list (c.resultsDir os w target) speed st else st

/-- The state of a chain with a valid target at the point where the list is chosen. -/
def ChainSpec.collected (c : ChainSpec) (os : OS σ) (w : σ) (target : String)
    (speed : Int) : Chain σ :=
  c.collect os w target speed
    { world := os.mkdirAll w (c.resultsDir os w target),
      trace := [Event.print c.openBanner], used := [] }

/-- The list chosen for the scan, the empty string when no candidate exists. -/
def ChainSpec.chosenList (c : ChainSpec) (os : OS σ) (w : σ) (target : String)
    (speed : Int) : String :=
  chooseFirstExisting os (c.collected os w target speed).world (c.candidates os w target)

/-- The `return unique(used)` of a chain, followed by the deferred
`cleanupTempDir(tmpDir)`. -/
def finishChain (os : OS σ) (tmpDir : String) (st : Chain σ) : ChainResult σ :=
  { tools := unique st.used, world := cleanupTempDir os tmpDir st.world, trace := st.trace }

/-- The state of a chain with a valid target when it reaches its `return`: after the
message and the closing banner when no candidate list exists (modes.go 213-217), after
the scan and the closing banner otherwise (modes.go 219-262). -/
def ChainSpec.final (c : ChainSpec) (os : OS σ) (w : σ) (target : String) (speed : Int) :
    Chain σ :=
  let st := c.collected os w target speed
  let list := c.chosenList os w target speed
  if list = "" then
    let st := logInfo c.label c.noListMsg st
    println c.closeBanner st
  else
    let st := c.scan os w target speed list st
    println c.closeBanner st

/-- A chain function of modes.go, started in world `w`: `runXSSChain` (91-263),
`runSQLiChain` (269-409), `runLFIChain` (415-542), `runSSRFChain` (548-675),
`runRedirectChain` (681-808), `runSensitiveChain` (814-900), `runCMSChain` (906-995),
`runRCEChain` (1001-1083), according to `c`. -/
def runChain (os : OS σ) (c : ChainSpec) (target : String) (speed : Int) (w : σ) :
    ChainResult σ :=
  if extractDomain target = "" then
    { tools := [], world := w,
      trace := [Event.print c.openBanner,
        Event.print ("[" ++ c.label ++ "] Target tidak valid: " ++ target),
        Event.print c.closeBanner] }
  else
    finishChain os (c.tmpDir os w target) (c.final os w target speed)

/-- The strings of `runXSSChain` (modes.go 91-263). -/
def specXSS : ChainSpec :=
  { label := "XSS",
    openBanner := "========== [MODE XSS] ==========",
    closeBanner := "========== [/MODE XSS] =========",
    mode := "xss", urlPhase := true, gauElse := true,
    httpxName := "httpx (subs->hosts)", httpxExtra := [],
    noListMsg := "Tidak ada daftar URL kandidat, hentikan mode XSS.",
    severity := ["--severity", "medium,high,critical"], tags := "xss", dalfox := true }

/-- The strings of `runSQLiChain` (modes.go 269-409). -/
def specSQLi : ChainSpec :=
  { label := "SQLi",
    openBanner := "========== [MODE SQLi] =========",
    closeBanner := "========== [/MODE SQLi] =========",
    mode := "sqli", urlPhase := true, gauElse := true,
    httpxName := "httpx (subs->hosts)", httpxExtra := [],
    noListMsg := "Tidak ada URL kandidat, hentikan mode SQLi.",
    severity := [], tags := "sqli", dalfox := false }

/-- The strings of `runLFIChain` (modes.go 415-542). -/
def specLFI : ChainSpec :=
  { label := "LFI",
    openBanner := "========== [MODE LFI/RFI] =========",
    closeBanner := "========== [/MODE LFI/RFI] =========",
    mode := "lfi", urlPhase := true, gauElse := false,
    httpxName := "httpx (subs->hosts)", httpxExtra := [],
    noListMsg := "Tidak ada URL kandidat LFI.",
    severity := [], tags := "lfi", dalfox := false }

/-- The strings of `runSSRFChain` (modes.go 548-675). -/
def specSSRF : ChainSpec :=
  { label := "SSRF",
    openBanner := "========== [MODE SSRF] =========",
    closeBanner := "========== [/MODE SSRF] =========",
    mode := "ssrf", urlPhase := true, gauElse := false,
    httpxName := "httpx (subs->hosts)", httpxExtra := [],
    noListMsg := "Tidak ada URL kandidat SSRF.",
    severity := [], tags := "ssrf", dalfox := false }

/-- The strings of `runRedirectChain` (modes.go 681-808). -/
def specRedirect : ChainSpec :=
  { label := "REDIRECT",
    openBanner := "========== [MODE OPEN REDIRECT] =========",
    closeBanner := "========== [/MODE OPEN REDIRECT] =========",
    mode := "redirect", urlPhase := true, gauElse := false,
    httpxName := "httpx (subs->hosts)", httpxExtra := [],
    noListMsg := "Tidak ada URL kandidat redirect.",
    severity := [], tags := "redirect", dalfox := false }

/-- The strings of `runSensitiveChain` (modes.go 814-900). -/
def specSensitive : ChainSpec :=
  { label := "SENSITIVE",
    openBanner := "========== [MODE SENSITIVE/BACKUP] =========",
    closeBanner := "========== [/MODE SENSITIVE/BACKUP] =========",
    mode := "sensitive", urlPhase := false, gauElse := false,
    httpxName := "httpx (subs->hosts)", httpxExtra := [],
    noListMsg := "Tidak ada host list untuk scanning exposures.",
    severity := [], tags := "exposure,exposures,files,backup", dalfox := false }

/-- The strings of `runCMSChain` (modes.go 906-995). -/
def specCMS : ChainSpec :=
  { label := "CMS",
    openBanner := "========== [MODE CMS/PANEL] =========",
    closeBanner := "========== [/MODE CMS/PANEL] =========",
    mode := "cms", urlPhase := false, gauElse := false,
    httpxName := "httpx (subs->hosts tech-detect)", httpxExtra := ["-td"],
    noListMsg := "Tidak ada host list untuk scanning CMS.",
    severity := [], tags := "wp,wordpress,drupal,joomla,cms,login,panel", dalfox := false }

/-- The strings of `runRCEChain` (modes.go 1001-1083). -/
def specRCE : ChainSpec :=
  { label := "RCE",
    openBanner := "========== [MODE RCE/HIGH IMPACT] =========",
    closeBanner := "========== [/MODE RCE/HIGH IMPACT] =========",
    mode := "rce", urlPhase := false, gauElse := false,
    httpxName := "httpx (subs->hosts)", httpxExtra := [],
    noListMsg := "Tidak ada host list untuk scanning high-impact.",
    severity := [], tags := "rce,critical,takeover", dalfox := false }

/-- `runXSSChain` (modes.go 91-263). -/
def runXSSChain (os : OS σ) (target : String) (speed : Int) (w : σ) : ChainResult σ :=
  runChain os specXSS target speed w

/-- `runSQLiChain` (modes.go 269-409). -/
def runSQLiChain (os : OS σ) (target : String) (speed : Int) (w : σ) : ChainResult σ :=
  runChain os specSQLi target speed w

/-- `runLFIChain` (modes.go 415-542). -/
def runLFIChain (os : OS σ) (target : String) (speed : Int) (w : σ) : ChainResult σ :=
  runChain os specLFI target speed w

/-- `runSSRFChain` (modes.go 548-675). -/
def runSSRFChain (os : OS σ) (target : String) (speed : Int) (w : σ) : ChainResult σ :=
  runChain os specSSRF target speed w

/-- `runRedirectChain` (modes.go 681-808). -/
def runRedirectChain (os : OS σ) (target : String) (speed : Int) (w : σ) : ChainResult σ :=
  runChain os specRedirect target speed w

/-- `runSensitiveChain` (modes.go 814-900). -/
def runSensitiveChain (os : OS σ) (target : String) (speed : Int) (w : σ) : ChainResult σ :=
  runChain os specSensitive target speed w

/-- `runCMSChain` (modes.go 906-995). -/
def runCMSChain (os : OS σ) (target : String) (speed : Int) (w : σ) : ChainResult σ :=
  runChain os specCMS target speed w

/-- `runRCEChain` (modes.go 1001-1083). -/
def runRCEChain (os : OS σ) (target : String) (speed : Int) (w : σ) : ChainResult σ :=
  runChain os specRCE target speed w

/-- The eight chains, in the order of their mode numbers 1 to 8. -/
def chainSpecs : List ChainSpec :=
  [specXSS, specSQLi, specLFI, specSSRF, specRedirect, specSensitive, specCMS, specRCE]

/-- The chain that `RunModes` runs for mode number `m` (modes.go 32-68), `none` for
the numbers of its `default` case. -/
def chainOfMode (m : Int) : Option ChainSpec :=
  if m = 1 then some specXSS
  else if m = 2 then some specSQLi
  else if m = 3 then some specLFI
  else if m = 4 then some specSSRF
  else if m = 5 then some specRedirect
  else if m = 6 then some specSensitive
  else if m = 7 then some specCMS
  else if m = 8 then some specRCE
  else none

/-- The state of `RunModes` between two modes: the key set of the map `used`, the
world, and what was observed. -/
structure RunState (σ : Type) where
  used : List String
  world : σ
  trace : List (Event σ)

/-- The inner loop `for _, t := range chain(target, speed) { used[t] = struct{}{} }`
of `RunModes`, once the chain has returned `r`. -/
def noteTools (st : RunState σ) (r : ChainResult σ) : RunState σ :=
  { used := r.tools.foldl mapInsert st.used, world := r.world, trace := st.trace ++ r.trace }

/-- One iteration of the loop of `RunModes`, the `switch` on the mode (modes.go 31-69). -/
def runModesStep (os : OS σ) (target : String) (speed : Int) (st : RunState σ) (m : Int) :
    RunState σ :=
  if m = 1 then noteTools st (runXSSChain os target speed st.world)
  else if m = 2 then noteTools st (runSQLiChain os target speed st.world)
  else if m = 3 then noteTools st (runLFIChain os target speed st.world)
  else if m = 4 then noteTools st (runSSRFChain os target speed st.world)
  else if m = 5 then noteTools st (runRedirectChain os target speed st.world)
  else if m = 6 then noteTools st (runSensitiveChain os target speed st.world)
  else if m = 7 then noteTools st (runCMSChain os target speed st.world)
  else if m = 8 then noteTools st (runRCEChain os target speed st.world)
  else
    { st with trace := st.trace ++
        [Event.print ("[INFO] Mode " ++ Go.sprintInt m ++ " belum diimplementasikan.")] }

/-- The loop of `RunModes`, from world `w`. -/
def runModesLoop (os : OS σ) (modes : List Int) (target : String) (speed : Int) (w : σ) :
    RunState σ :=
  modes.foldl (runModesStep os target speed) { used := [], world := w, trace := [] }

/-- `RunModes` (modes.go 28-76): the returned slice lists the keys of the map in the
order `ord` of the final `range` (modes.go 72-74). -/
def RunModes (os : OS σ) (ord : RangeOrder) (modes : List Int) (target : String)
    (speed : Int) (w : σ) : List String :=
  ord.visit (runModesLoop os modes target speed w).used

end Runner

/-! ## A small concrete environment

Used to evaluate the chains on concrete inputs. -/

/-- A concrete world: the tools on PATH and the regular files that exist. -/
structure SimWorld where
  tools : List String
  files : List String
  deriving DecidableEq, Repr

/-- The argument that follows `flag` in an argument vector. -/
def argAfter (flag : String) : List String → Option String
  | [] => none
  | a :: rest =>
    match rest with
    | [] => none
    | b :: _ => if a = flag then some b else argAfter flag rest

/-- The effect of a child process on the concrete world: subfinder and httpx write
their `-o` file; nuclei succeeds and, when `nucleiRemovesList` is set, removes the file
it was given with `-l`; a tool named in `failing` exits with an error and writes
nothing; every other process succeeds and changes nothing. -/
def simRun (failing : List String) (nucleiRemovesList : Bool) (w : SimWorld)
    (name : String) (args : List String) : Option String × SimWorld :=
  if name ∈ failing then (some "exit status 1", w)
  else if name = "subfinder" ∨ name = "httpx" then
    match argAfter "-o" args with
    | some out => (none, { w with files := w.files ++ [out] })
    | none => (none, w)
  else if name = "nuclei" ∧ nucleiRemovesList = true then
    match argAfter "-l" args with
    | some l => (none, { w with files := w.files.filter (fun f => decide (f ≠ l)) })
    | none => (none, w)
  else (none, w)

/-- The path `f` is `dir` or lies below it. -/
def atOrBelow (dir f : String) : Bool :=
  decide (f = dir) || (dir ++ "/").data.isPrefixOf f.data

/-- A concrete operating system over `SimWorld`: the clock stands at 1, the temporary
directory is `/tmp`, the home directory `/home/u`, and `os.RemoveAll` removes the path
and the files below it. -/
def simOS (failing : List String) (nucleiRemovesList : Bool) : OS SimWorld :=
  { lookPath := fun w name => decide (name ∈ w.tools),
    stat := fun w path => if path ∈ w.files then some false else none,
    run := simRun failing nucleiRemovesList,
    mkdirAll := fun w _ => w,
    removeAll := fun w dir => { w with files := w.files.filter (fun f => !(atOrBelow dir f)) },
    unixNano := fun _ => 1,
    tempDir := fun _ => "/tmp",
    userHomeDir := fun _ => some "/home/u",
    getenv := fun _ _ => "" }

/-- The six tools of the catalogue. -/
def allTools : List String := ["subfinder", "httpx", "gau", "gf", "nuclei", "dalfox"]

/-- The path `f` lies strictly below the directory `dir`. -/
def below (dir f : String) : Bool := (dir ++ "/").data.isPrefixOf f.data

/-- `os.Stat` on a concrete world with directories: a listed path is a regular file,
and a path with a listed file below it is a directory. -/
def simStat (w : SimWorld) (path : String) : Option Bool :=
  if path ∈ w.files then some false
  else if w.files.any (below path) then some true
  else none

/-- The concrete operating system `simOS` with directories: a tool that writes a file
creates the directories above it, and `os.RemoveAll` removes the path and everything
below it. -/
def simDirOS (failing : List String) (nucleiRemovesList : Bool) : OS SimWorld :=
  { simOS failing nucleiRemovesList with stat := simStat }

/-- The operating system `simDirOS` where `os.RemoveAll` fails and removes nothing
(for instance the directory was made read-only); the runner discards its error
(modes.go 1150). -/
def stuckOS (failing : List String) (nucleiRemovesList : Bool) : OS SimWorld :=
  { simDirOS failing nucleiRemovesList with removeAll := fun w _ => w }

/-! ## `cmd/bugx/main.go` -/

/-- The first loop of `normalizeAndOrderModes` (main.go 79-87): the state is the key
set `seen` and the flag `hasRunAll`. -/
def normalizeScan (st : List Int × Bool) (m : Int) : List Int × Bool :=
  if m = 9 then (st.1, true)
  else if m ≥ 1 ∧ m ≤ 8 then (mapInsert st.1 m, st.2)
  else st

/-- Go `sort.Ints`. -/
def sortInts (l : List Int) : List Int := l.insertionSort (· ≤ ·)

/-- `normalizeAndOrderModes` (main.go 71-104). -/
def normalizeAndOrderModes (ord : RangeOrder) (input : List Int) : List Int :=
  if input.length = 0 then []
  else
    let st := input.foldl normalizeScan ([], false)
    if st.2 then [1, 2, 3, 4, 5, 6, 7, 8]
    else sortInts (ord.visit st.1)

/-- `normalizeTarget` (main.go 111-122). -/
def normalizeTarget (raw : String) : String :=
  let raw := Go.trimSpace raw
  if raw = "" then ""
  else if Go.hasPrefix raw "http://" || Go.hasPrefix raw "https://" then raw
  else "https://" ++ raw

/-! ## `internal/ui/menu.go` -/

/-- `MenuSelection` (menu.go 12-15). -/
structure MenuSelection where
  Modes : List Int
  Exit : Bool
  deriving DecidableEq, Repr

/-- Go `bufio.Reader.ReadString` with the newline delimiter, on the text waiting on
standard input: everything up to and including the first newline, or everything when
there is none. -/
def readStringNewline : List Char → List Char
  | [] => []
  | c :: cs => if c = '\n' then [c] else c :: readStringNewline cs

/-- `readLine` (menu.go 158-162). -/
def readLine (stdin : String) : String :=
  Go.trimRight (String.mk (readStringNewline stdin.data)) ['\r', '\n']

/-- The loop of `ReadModes` over the comma-separated parts (menu.go 67-87). -/
def readModesLoop : List String → List Int → List Int → MenuSelection
  | [], _, modes => { Modes := modes, Exit := false }
  | p :: ps, seen, modes =>
    let p := Go.trimSpace p
    if p = "" then readModesLoop ps seen modes
    else
      match Go.atoi p with
      | none => readModesLoop ps seen modes
      | some n =>
        if n = 0 then { Modes := [], Exit := true }
        else if n < 0 ∨ n > 9 then readModesLoop ps seen modes
        else if n ∈ seen then readModesLoop ps seen modes
        else readModesLoop ps (n :: seen) (modes ++ [n])

/-- `ReadModes` (menu.go 50-90), as a function of the text on standard input. -/
def ReadModes (stdin : String) : MenuSelection :=
  let line := Go.trimSpace (readLine stdin)
  if line = "" then { Modes := [], Exit := false }
  else if line = "0" then { Modes := [], Exit := true }
  else readModesLoop (Go.split line ',') [] []

/-! ## The invocations a chain may make

Used to state and prove properties of every run of a chain. -/

section Statements

variable {σ : Type}

/-- One invocation together with the bookkeeping that follows it: the process is run,
the event is recorded, and `tool` is appended to `used` when the error is nil. -/
def execNote (os : OS σ) (name : String) (args : List String) (tool : String)
    (st : Chain σ) : Chain σ :=
  { world := (os.run st.world name args).2,
    trace := st.trace ++ [Event.exec st.world name args (os.run st.world name args).1],
    used := match (os.run st.world name args).1 with
      | none => st.used ++ [tool]
      | some _ => st.used }

/-- The invocations of a chain: `Allowed st name args tool` says that in state `st`
the chain may run process `name` with `args` on behalf of `tool`, under the conditions
checked by the `if` that guards the invocation in modes.go. -/
inductive ChainSpec.Allowed (c : ChainSpec) (os : OS σ) (w : σ) (target : String)
    (speed : Int) : Chain σ → String → List String → String → Prop where
  | subfinder (st : Chain σ) :
      hasTool os st.world "subfinder" = true →
      ChainSpec.Allowed c os w target speed st "subfinder"
        (["-d", extractDomain target, "-o", c.subs os w target] ++ speedArgs "-t" speed)
        "subfinder"
  | httpxSubs (st : Chain σ) :
      hasTool os st.world "httpx" = true →
      fileExists os st.world (c.subs os w target) = true →
      ChainSpec.Allowed c os w target speed st "httpx"
        (["-l", c.subs os w target, "-o", c.hosts os w target, "-mc", "200"] ++
          c.httpxExtra ++ speedArgs "-t" speed) "httpx"
  | gau (st : Chain σ) :
      hasTool os st.world "gau" = true →
      fileExists os st.world (c.hosts os w target) = true →
      ChainSpec.Allowed c os w target speed st "sh"
        ["-c", gauLine (c.hosts os w target) (c.gauOut os w target) speed] "gau"
  | gf (st : Chain σ) :
      hasTool os st.world "gf" = true →
      fileExists os st.world (c.gauOut os w target) = true →
      ChainSpec.Allowed c os w target speed st "sh"
        ["-c", gfLine c.mode (c.gauOut os w target) (c.gfOut os w target)] "gf"
  | httpxGf (st : Chain σ) :
      hasTool os st.world "httpx" = true →
      fileExists os st.world (c.gfOut os w target) = true →
      ChainSpec.Allowed c os w target speed st "httpx"
        (["-l", c.gfOut os w target, "-o", c.clean os w target, "-mc", "200"] ++
          speedArgs "-t" speed) "httpx"
  | nuclei (st : Chain σ) :
      hasTool os st.world "nuclei" = true →
      c.chosenList os w target speed ≠ "" →
      st.world = (c.collected os w target speed).world →
      ChainSpec.Allowed c os w target speed st "nuclei"
        (nucleiArgs (c.chosenList os w target speed) c.severity c.tags
          (Go.filepathJoin [c.resultsDir os w target, "nuclei.json"]) speed) "nuclei"
  | dalfox (st : Chain σ) :
      hasTool os st.world "dalfox" = true →
      c.dalfox = true →
      c.chosenList os w target speed ≠ "" →
      ChainSpec.Allowed c os w target speed st "dalfox"
        ["file", c.chosenList os w target speed, "--skip-mining-all", "--custom-payload",
          Go.filepathJoin [buildBugxBaseDir os st.world, "wordlist", "xss.txt"],
          "-w", Go.sprintInt (maxInt speed 1), "-o",
          Go.filepathJoin [c.resultsDir os w target, "dalfox.json"]] "dalfox"

/-- The event is a successful invocation of the binary `b` by the chain: a process
named `b` that returned a nil error or, for gau and gf, the shell run on the gau line
or the gf line of the chain that returned a nil error. -/
def ChainSpec.succeededFor (c : ChainSpec) (os : OS σ) (w : σ) (target : String)
    (speed : Int) (b : String) : Event σ → Bool
  | Event.print _ => false
  | Event.exec _ name args err =>
    err.isNone &&
      (if b = "gau" then
        decide (name = "sh" ∧
          args = ["-c", gauLine (c.hosts os w target) (c.gauOut os w target) speed])
      else if b = "gf" then
        decide (name = "sh" ∧
          args = ["-c", gfLine c.mode (c.gauOut os w target) (c.gfOut os w target)])
      else decide (name = b))

/-- The condition of the step behind an invocation, evaluated in the world the process
started in: the binary of the step is reported by `hasTool` and the input file of the
step by `fileExists`.  The input is the `-l` argument of httpx (which has to be
`subs.txt` or `gf_<TAG>.txt`), `hosts.txt` for the gau line, `gau_<TAG>.txt` for the gf
line, and the chosen list for nuclei and dalfox (their second argument); subfinder has
none.  For dalfox the list is looked up in the world of the invocation, or, when
`dalfoxAtSelection` is set, in the world in which the list was chosen. -/
def ChainSpec.stepReady (c : ChainSpec) (os : OS σ) (w : σ) (target : String)
    (speed : Int) (dalfoxAtSelection : Bool) : Event σ → Bool
  | Event.print _ => true
  | Event.exec w0 name args _ =>
    if name = "subfinder" then hasTool os w0 "subfinder"
    else if name = "httpx" then
      hasTool os w0 "httpx" &&
        (match args with
          | flag :: inp :: _ =>
            decide (flag = "-l") &&
              (decide (inp = c.subs os w target) || decide (inp = c.gfOut os w target)) &&
              fileExists os w0 inp
          | _ => false)
    else if name = "sh" then
      (decide (args = ["-c", gauLine (c.hosts os w target) (c.gauOut os w target) speed]) &&
        hasTool os w0 "gau" && fileExists os w0 (c.hosts os w target)) ||
      (decide (args = ["-c", gfLine c.mode (c.gauOut os w target) (c.gfOut os w target)]) &&
        hasTool os w0 "gf" && fileExists os w0 (c.gauOut os w target))
    else if name = "nuclei" then
      hasTool os w0 "nuclei" &&
        (match args with
          | flag :: l :: _ =>
            decide (flag = "-l") && decide (l = c.chosenList os w target speed) &&
              fileExists os w0 l
          | _ => false)
    else if name = "dalfox" then
      hasTool os w0 "dalfox" &&
        (match args with
          | sub :: l :: _ =>
            decide (sub = "file") && decide (l = c.chosenList os w target speed) &&
              fileExists os
                (if dalfoxAtSelection then (c.collected os w target speed).world else w0) l
          | _ => false)
    else false

/-- The tags column of the table in section 4.4.1 of the specification, by mode
number. -/
def specTagsOfMode (m : Int) : String :=
  if m = 1 then "xss"
  else if m = 2 then "sqli"
  else if m = 3 then "lfi"
  else if m = 4 then "ssrf"
  else if m = 5 then "redirect"
  else if m = 6 then "exposure,exposures,files,backup"
  else if m = 7 then "wp,wordpress,drupal,joomla,cms,login,panel"
  else "rce,critical,takeover"

/-- The argument vector of nuclei in the order of the specification: -l, -tags,
--severity, -o, -c. -/
def claimedNucleiArgs (list : String) (severity : List String) (tags out : String)
    (speed : Int) : List String :=
  ["-l", list, "-tags", tags] ++ severity ++ ["-o", out] ++ speedArgs "-c" speed

/-- The dalfox invocation of the XSS chain on `https://a.test` at speed 10, in the
concrete world where every tool is on PATH and nuclei removes the list it was given. -/
def dalfoxAfterNuclei : Event SimWorld :=
  Event.exec ⟨allTools, ["/tmp/BUGx-xss-a.test-1/subs.txt"]⟩ "dalfox"
    ["file", "/tmp/BUGx-xss-a.test-1/hosts.txt", "--skip-mining-all", "--custom-payload",
      "/home/u/BUGx/wordlist/xss.txt", "-w", "10", "-o",
      "/home/u/BUGx/results/xss/a.test/dalfox.json"] none

end Statements

/-! ## Reference definitions of the specification and the shell's reading of words -/

/-- The reference definition of `extract_host` in section 4.3 of the specification:
trim; when the text contains `://` keep only what follows its first occurrence; drop
everything from the first `/`; drop everything from the first `:`; trim. -/
def extractHostRef (raw : String) : String :=
  let t := Go.trimSpace raw
  let rest : List Char :=
    match Go.cutChars "://".data t.data with
    | some (_, after) => after
    | none => t.data
  let noPath := rest.takeWhile (fun c => decide (c ≠ '/'))
  let noPort := noPath.takeWhile (fun c => decide (c ≠ ':'))
  Go.trimSpace (String.mk noPort)

/-- The nine characters that `sanitise_for_path` replaces, as the specification lists
them. -/
def nineChars : List Char := ['/', '\\', ':', '*', '?', '"', '<', '>', '|']

/-- The text `s` with every single quote replaced by the four characters quote,
backslash, quote, quote, as the specification of `escape_shell` words it. -/
def quoteEscaped : List Char → List Char
  | [] => []
  | c :: cs =>
    if c = quoteChar then quoteChar :: '\\' :: quoteChar :: quoteChar :: quoteEscaped cs
    else c :: quoteEscaped cs

/-- The characters that stand for themselves in a shell word without any quoting:
letters, digits and a few punctuation marks.  Every other unquoted character (an
operator, a `$`, a double quote, a glob character, ...) has a meaning that the three
quoting rules below do not cover. -/
def shellPlain (c : Char) : Bool :=
  c.isAlphanum || decide (c ∈ ['_', '-', '.', '/', ',', ':', '+', '@', '%'])

/-- The POSIX shell reading a command line into words (XCU 2.2, 2.6.5), from the text
still to read, whether the reader is inside single quotes, the word in progress
(`none` between words) and the words read so far:
* inside single quotes every character is literal, up to the closing quote;
* outside quotes a single quote opens a quoted piece, a backslash makes the next
  character literal (a backslash with the newline after it is a line continuation and
  is dropped), a blank ends the word in progress, a plain character stands for itself;
  adjacent pieces belong to the same word;
* the reading fails (`none`) on an unterminated quote, a trailing backslash, and on
  an unquoted character that is neither blank nor plain. -/
def shellRead : List Char → Bool → Option (List Char) → List (List Char) →
    Option (List (List Char))
  | [], true, _, _ => none
  | [], false, none, acc => some acc
  | [], false, some word, acc => some (acc ++ [word])
  | c :: cs, true, word, acc =>
    if c = quoteChar then shellRead cs false word acc
    else shellRead cs true (some (word.getD [] ++ [c])) acc
  | c :: cs, false, word, acc =>
    if c = quoteChar then shellRead cs true (some (word.getD [])) acc
    else if c = '\\' then
      match cs with
      | [] => none
      | d :: ds =>
        if d = '\n' then shellRead ds false word acc
        else shellRead ds false (some (word.getD [] ++ [d])) acc
    else if c = ' ' ∨ c = '\t' then
      match word with
      | none => shellRead cs false none acc
      | some w => shellRead cs false none (acc ++ [w])
    else if shellPlain c then shellRead cs false (some (word.getD [] ++ [c])) acc
    else none

/-- The words that the POSIX shell reads from a command line. -/
def shellWords (line : String) : Option (List String) :=
  (shellRead line.data false none []).map (fun ws => ws.map String.mk)

/-- The base of the results tree as `buildModeResultsDir` resolves it (modes.go
1160-1169): the home directory of the user database, else `HOME`, else `.`. -/
def resultsBase {σ : Type} (os : OS σ) (w : σ) : String :=
  let base : String :=
    match os.userHomeDir w with
    | some home => if home ≠ "" then home else os.getenv w "HOME"
    | none => os.getenv w "HOME"
  if base = "" then "." else base

/-- The state of `RunModes` between two modes is untouched with respect to the world
`w` it started in: the map has no key, the world is `w`, and only printed lines were
observed. -/
def Untouched {σ : Type} (w : σ) (st : RunState σ) : Prop :=
  st.used = [] ∧ st.world = w ∧ ∀ e ∈ st.trace, ∃ line, e = Event.print line

/-! # Theorems -/

/-! ## Maps used as sets -/

theorem mem_mapInsert {α : Type} [DecidableEq α] (keys : List α) (k x : α) :
    x ∈ mapInsert keys k ↔ x ∈ keys ∨ x = k := by
  unfold mapInsert
  split
  · constructor
    · intro h; exact Or.inl h
    · rintro (h | h)
      · exact h
      · subst h; assumption
  · simp

theorem nodup_mapInsert {α : Type} [DecidableEq α] (keys : List α) (k : α)
    (h : keys.Nodup) : (mapInsert keys k).Nodup := by
  unfold mapInsert
  split
  · exact h
  · rename_i hk
    exact List.Nodup.append h (List.nodup_singleton k) (by simpa using hk)

/-! ## `normalizeAndOrderModes` -/

theorem normalizeScan_foldl (input : List Int) :
    ∀ st : List Int × Bool,
      (input.foldl normalizeScan st).2 = (st.2 || decide (9 ∈ input)) ∧
      (∀ x, x ∈ (input.foldl normalizeScan st).1 ↔
        x ∈ st.1 ∨ (x ∈ input ∧ 1 ≤ x ∧ x ≤ 8)) ∧
      (st.1.Nodup → (input.foldl normalizeScan st).1.Nodup) := by
  induction input with
  | nil => intro st; simp
  | cons m ms ih =>
    intro st
    rw [List.foldl_cons]
    obtain ⟨h1, h2, h3⟩ := ih (normalizeScan st m)
    rw [h1]
    refine ⟨?_, ?_, ?_⟩
    · unfold normalizeScan
      by_cases hm : m = 9
      · subst hm; simp
      · have h9 : ¬ (9 : Int) = m := fun h => hm h.symm
        split_ifs <;> simp [h9]
    · intro x
      rw [h2]
      unfold normalizeScan
      by_cases hm : m = 9
      · subst hm
        simp only [if_true, List.mem_cons]
        constructor
        · rintro (h | ⟨h, hx⟩)
          · exact Or.inl h
          · exact Or.inr ⟨Or.inr h, hx⟩
        · rintro (h | ⟨h | h, hx⟩)
          · exact Or.inl h
          · subst h; omega
          · exact Or.inr ⟨h, hx⟩
      · simp only [hm, if_false, List.mem_cons]
        split_ifs with hr
        · simp only [mem_mapInsert]
          constructor
          · rintro ((h | h) | ⟨h, hx⟩)
            · exact Or.inl h
            · subst h; exact Or.inr ⟨Or.inl rfl, by omega⟩
            · exact Or.inr ⟨Or.inr h, hx⟩
          · rintro (h | ⟨h | h, hx⟩)
            · exact Or.inl (Or.inl h)
            · exact Or.inl (Or.inr h)
            · exact Or.inr ⟨h, hx⟩
        · constructor
          · rintro (h | ⟨h, hx⟩)
            · exact Or.inl h
            · exact Or.inr ⟨Or.inr h, hx⟩
          · rintro (h | ⟨h | h, hx⟩)
            · exact Or.inl h
            · subst h; exact absurd (by omega) hr
            · exact Or.inr ⟨h, hx⟩
    · intro hnd
      apply h3
      unfold normalizeScan
      split_ifs
      · exact hnd
      · exact nodup_mapInsert _ _ hnd
      · exact hnd

/-- The keys collected by the first loop of `normalizeAndOrderModes`. -/
theorem normalizeScan_keys (input : List Int) :
    (∀ x, x ∈ (input.foldl normalizeScan ([], false)).1 ↔ (x ∈ input ∧ 1 ≤ x ∧ x ≤ 8)) ∧
    (input.foldl normalizeScan ([], false)).1.Nodup ∧
    ((input.foldl normalizeScan ([], false)).2 = decide (9 ∈ input)) := by
  obtain ⟨h1, h2, h3⟩ := normalizeScan_foldl input ([], false)
  refine ⟨?_, h3 List.nodup_nil, ?_⟩
  · intro x; rw [h2]; simp
  · rw [h1]; simp

theorem normalizeAndOrderModes_eq (ord : RangeOrder) (L : List Int) :
    normalizeAndOrderModes ord L =
      if L.length = 0 then []
      else if (9 : Int) ∈ L then [1, 2, 3, 4, 5, 6, 7, 8]
      else sortInts (ord.visit (L.foldl normalizeScan ([], false)).1) := by
  obtain ⟨_, _, h9⟩ := normalizeScan_keys L
  unfold normalizeAndOrderModes
  simp only [h9, decide_eq_true_eq]

theorem normalize_sorted_range (ord : RangeOrder) (L : List Int) :
    (normalizeAndOrderModes ord L).Sorted (· < ·) ∧
    ∀ m ∈ normalizeAndOrderModes ord L, 1 ≤ m ∧ m ≤ 8 := by
  obtain ⟨hk, hnd, _⟩ := normalizeScan_keys L
  rw [normalizeAndOrderModes_eq]
  by_cases h0 : L.length = 0
  · simp [h0]
  · by_cases h9 : (9 : Int) ∈ L
    · simp only [h0, h9, if_true, if_false]
      constructor
      · decide
      · decide
    · simp only [h0, h9, if_false]
      have hp : (sortInts (ord.visit (L.foldl normalizeScan ([], false)).1)).Perm
          (L.foldl normalizeScan ([], false)).1 :=
        (List.perm_insertionSort _ _).trans (ord.perm _)
      constructor
      · exact List.Sorted.lt_of_le (List.sorted_insertionSort _ _) (hp.nodup_iff.mpr hnd)
      · intro m hm
        exact ((hk m).mp (hp.mem_iff.mp hm)).2

theorem normalize_perm_eq (ord ord' : RangeOrder) (L L' : List Int) (h : L.Perm L') :
    normalizeAndOrderModes ord L = normalizeAndOrderModes ord' L' := by
  obtain ⟨hk, hnd, h9⟩ := normalizeScan_keys L
  obtain ⟨hk', hnd', h9'⟩ := normalizeScan_keys L'
  have hlen : L.length = L'.length := h.length_eq
  have hmem9 : (9 : Int) ∈ L ↔ (9 : Int) ∈ L' := h.mem_iff
  rw [normalizeAndOrderModes_eq, normalizeAndOrderModes_eq, hlen]
  by_cases h0 : L'.length = 0
  · simp [h0]
  · simp only [h0, if_false]
    by_cases hin : (9 : Int) ∈ L'
    · simp [hin, hmem9.mpr hin]
    · have hin' : (9 : Int) ∉ L := fun hh => hin (hmem9.mp hh)
      simp only [hin, hin', if_false]
      apply List.eq_of_perm_of_sorted (r := (· ≤ ·))
      · refine ((List.perm_insertionSort _ _).trans (ord.perm _)).trans ?_
        refine List.Perm.trans ?_ ((List.perm_insertionSort _ _).trans (ord'.perm _)).symm
        rw [List.perm_ext_iff_of_nodup hnd hnd']
        intro x
        rw [hk, hk', h.mem_iff]
      · exact List.sorted_insertionSort _ _
      · exact List.sorted_insertionSort _ _

/-- C8. For every list L of integers and every permutation L' of L,
`normalizeAndOrderModes` gives the same result on L and on L' (whatever the order in
which the Go map is visited), and the result is strictly ascending with every element
in the range 1..8. -/
theorem normalizeAndOrderModes_perm_invariant (ord ord' : RangeOrder) (L L' : List Int)
    (h : L.Perm L') :
    normalizeAndOrderModes ord L = normalizeAndOrderModes ord' L' ∧
    (normalizeAndOrderModes ord L).Sorted (· < ·) ∧
    ∀ m ∈ normalizeAndOrderModes ord L, 1 ≤ m ∧ m ≤ 8 :=
  ⟨normalize_perm_eq ord ord' L L' h, normalize_sorted_range ord L⟩

/-- Witness of C8 on the inputs `[3, 1, 2, 3]` and `[3, 3, 2, 1]`. -/
theorem normalizeAndOrderModes_perm_invariant_witness :
    normalizeAndOrderModes RangeOrder.inOrder [3, 1, 2, 3] = [1, 2, 3] ∧
    (normalizeAndOrderModes RangeOrder.inOrder [3, 1, 2, 3] =
        normalizeAndOrderModes RangeOrder.backwards [3, 3, 2, 1] ∧
      (normalizeAndOrderModes RangeOrder.inOrder [3, 1, 2, 3]).Sorted (· < ·) ∧
      ∀ m ∈ normalizeAndOrderModes RangeOrder.inOrder [3, 1, 2, 3], 1 ≤ m ∧ m ≤ 8) :=
  ⟨by decide,
   normalizeAndOrderModes_perm_invariant RangeOrder.inOrder RangeOrder.backwards
     [3, 1, 2, 3] [3, 3, 2, 1] (by decide)⟩

/-- C9. For every list L of integers that contains 9 and does not contain 0,
`normalizeAndOrderModes` returns `[1,2,3,4,5,6,7,8]`, whatever other values L holds and
whatever the order in which the Go map is visited. -/
theorem normalizeAndOrderModes_run_all (ord : RangeOrder) (L : List Int)
    (h9 : (9 : Int) ∈ L) (h0 : (0 : Int) ∉ L) :
    normalizeAndOrderModes ord L = [1, 2, 3, 4, 5, 6, 7, 8] := by
  have hlen : L.length ≠ 0 := by
    intro hl
    rw [List.length_eq_zero] at hl
    subst hl
    simp at h9
  rw [normalizeAndOrderModes_eq]
  simp [hlen, h9]

/-- Witness of C9 on the input `[4, 9, 12, 4, -1]`. -/
theorem normalizeAndOrderModes_run_all_witness :
    (9 : Int) ∈ [4, 9, 12, 4, -1] ∧ (0 : Int) ∉ [4, 9, 12, 4, -1] ∧
    normalizeAndOrderModes RangeOrder.backwards [4, 9, 12, 4, -1] = [1, 2, 3, 4, 5, 6, 7, 8] :=
  ⟨by decide, by decide,
   normalizeAndOrderModes_run_all RangeOrder.backwards [4, 9, 12, 4, -1] (by decide) (by decide)⟩

/-! ## `ReadModes` -/

theorem rdropWhile_cons {α : Type} [DecidableEq α] (p : α → Bool) (c : α) (a : List α) :
    (c :: a).rdropWhile p =
      if a.rdropWhile p = [] then (if p c then [] else [c]) else c :: a.rdropWhile p := by
  induction a using List.reverseRecOn with
  | nil =>
    have h := List.rdropWhile_concat p ([] : List α) c
    simpa using h
  | append_singleton a x ih =>
    have h1 := List.rdropWhile_concat p (c :: a) x
    have h2 := List.rdropWhile_concat p a x
    rw [List.cons_append] at h1
    rw [h1, h2]
    by_cases hx : p x = true
    · simp only [hx, if_true]
      exact ih
    · simp [hx]

theorem splitChars_ne_nil (sep : Char) (s : List Char) : Go.splitChars sep s ≠ [] := by
  cases s with
  | nil => simp [Go.splitChars]
  | cons c cs =>
    unfold Go.splitChars
    split_ifs
    · simp
    · split <;> simp

theorem splitChars_cons_ne (sep c : Char) (s : List Char) (h : c ≠ sep) :
    ∃ t ts, Go.splitChars sep s = t :: ts ∧ Go.splitChars sep (c :: s) = (c :: t) :: ts := by
  cases hs : Go.splitChars sep s with
  | nil => exact absurd hs (splitChars_ne_nil sep s)
  | cons t ts =>
    refine ⟨t, ts, rfl, ?_⟩
    conv_lhs => unfold Go.splitChars
    simp [h, hs]

theorem isSpace_ne_comma (w : Char) (hw : Go.isSpace w = true) : w ≠ ',' := by
  intro h
  subst h
  revert hw
  decide

theorem trimSpaceChars_cons_space (w : Char) (t : List Char) (hw : Go.isSpace w = true) :
    Go.trimSpaceChars (w :: t) = Go.trimSpaceChars t := by
  unfold Go.trimSpaceChars
  rw [rdropWhile_cons]
  by_cases h : t.rdropWhile Go.isSpace = []
  · simp [h, hw]
  · simp [h, List.dropWhile, hw]

/-- Leading white space of a line does not change its trimmed comma-separated tokens. -/
theorem split_dropWhile_space (s : List Char) :
    (Go.splitChars ',' (s.dropWhile Go.isSpace)).map Go.trimSpaceChars =
      (Go.splitChars ',' s).map Go.trimSpaceChars := by
  induction s with
  | nil => rfl
  | cons w s ih =>
    by_cases hw : Go.isSpace w = true
    · rw [List.dropWhile_cons_of_pos hw, ih]
      obtain ⟨t, ts, h1, h2⟩ := splitChars_cons_ne ',' w s (isSpace_ne_comma w hw)
      rw [h1, h2]
      simp [trimSpaceChars_cons_space w t hw]
    · rw [List.dropWhile_cons_of_neg hw]

/-- A trailing white space character does not change the tokens up to trailing white
space. -/
theorem split_concat_space (w : Char) (hw : Go.isSpace w = true) (s : List Char) :
    (Go.splitChars ',' (s ++ [w])).map (List.rdropWhile Go.isSpace) =
      (Go.splitChars ',' s).map (List.rdropWhile Go.isSpace) := by
  induction s with
  | nil =>
    have h : Go.splitChars ',' [w] = [[w]] := by
      obtain ⟨t, ts, h1, h2⟩ := splitChars_cons_ne ',' w [] (isSpace_ne_comma w hw)
      simp [Go.splitChars] at h1
      obtain ⟨rfl, rfl⟩ := h1
      exact h2
    rw [List.nil_append, h]
    simp [Go.splitChars, rdropWhile_cons, hw]
  | cons c s ih =>
    rw [List.cons_append]
    by_cases hc : c = ','
    · subst hc
      simp [Go.splitChars, ih]
    · obtain ⟨t, ts, h1, h2⟩ := splitChars_cons_ne ',' c s hc
      obtain ⟨t', ts', h1', h2'⟩ := splitChars_cons_ne ',' c (s ++ [w]) hc
      rw [h1, h1'] at ih
      rw [h2, h2']
      simp only [List.map_cons, List.cons.injEq] at ih ⊢
      refine ⟨?_, ih.2⟩
      rw [rdropWhile_cons, rdropWhile_cons, ih.1]

theorem split_rdropWhile_space (s : List Char) :
    (Go.splitChars ',' (s.rdropWhile Go.isSpace)).map (List.rdropWhile Go.isSpace) =
      (Go.splitChars ',' s).map (List.rdropWhile Go.isSpace) := by
  induction s using List.reverseRecOn with
  | nil => rfl
  | append_singleton s w ih =>
    by_cases hw : Go.isSpace w = true
    · rw [List.rdropWhile_concat_pos _ _ _ hw, ih, split_concat_space w hw]
    · rw [List.rdropWhile_concat_neg _ _ _ hw]

/-- Trimming a line does not change its trimmed comma-separated tokens. -/
theorem split_trimSpaceChars (s : List Char) :
    (Go.splitChars ',' (Go.trimSpaceChars s)).map Go.trimSpaceChars =
      (Go.splitChars ',' s).map Go.trimSpaceChars := by
  have h : ∀ l : List (List Char), l.map Go.trimSpaceChars =
      (l.map (List.rdropWhile Go.isSpace)).map (List.dropWhile Go.isSpace) := by
    intro l
    rw [List.map_map]
    rfl
  have e : Go.trimSpaceChars s = (s.rdropWhile Go.isSpace).dropWhile Go.isSpace := rfl
  rw [e, split_dropWhile_space, h, h, split_rdropWhile_space]

theorem atoi_empty : Go.atoi "" = none := by decide

/-- Once a part parses as 0 the loop of `ReadModes` returns Exit, whatever came before. -/
theorem readModesLoop_zero (parts : List String) :
    ∀ (seen modes : List Int),
      (∃ p ∈ parts, Go.atoi (Go.trimSpace p) = some 0) →
      readModesLoop parts seen modes = { Modes := [], Exit := true } := by
  induction parts with
  | nil => intro seen modes h; obtain ⟨p, hp, _⟩ := h; simp at hp
  | cons q qs ih =>
    intro seen modes h
    have hrest : (∃ p ∈ qs, Go.atoi (Go.trimSpace p) = some 0) ∨
        Go.atoi (Go.trimSpace q) = some 0 := by
      obtain ⟨p, hp, h0⟩ := h
      rcases List.mem_cons.mp hp with rfl | hp
      · exact Or.inr h0
      · exact Or.inl ⟨p, hp, h0⟩
    unfold readModesLoop
    simp only []
    by_cases hq : Go.trimSpace q = ""
    · rcases hrest with hr | hr
      · simp only [hq, if_true]
        exact ih seen modes hr
      · rw [hq, atoi_empty] at hr
        exact absurd hr (by simp)
    · simp only [hq, if_false]
      cases ha : Go.atoi (Go.trimSpace q) with
      | none =>
        rcases hrest with hr | hr
        · exact ih seen modes hr
        · rw [ha] at hr; exact absurd hr (by simp)
      | some n =>
        by_cases hn : n = 0
        · simp [hn]
        · rcases hrest with hr | hr
          · simp only [hn, if_false]
            split_ifs
            · exact ih _ _ hr
            · exact ih _ _ hr
            · exact ih _ _ hr
          · rw [ha] at hr
            exact absurd (Option.some.inj hr) hn

/-- C10. For every input whose line, split at the commas, has a token that after
trimming white space parses as the integer 0, `ReadModes` returns Exit = true with no
modes, whatever the other tokens are and wherever the 0 stands. -/
theorem ReadModes_zero_exits (stdin : String)
    (h : ∃ tok ∈ Go.split (readLine stdin) ',', Go.atoi (Go.trimSpace tok) = some 0) :
    ReadModes stdin = { Modes := [], Exit := true } := by
  have hex : ∃ p ∈ Go.split (Go.trimSpace (readLine stdin)) ',',
      Go.atoi (Go.trimSpace p) = some 0 := by
    obtain ⟨tok, htok, h0⟩ := h
    have hm : Go.trimSpaceChars tok.data ∈
        (Go.splitChars ',' (readLine stdin).data).map Go.trimSpaceChars := by
      unfold Go.split at htok
      obtain ⟨cs, hcs, rfl⟩ := List.mem_map.mp htok
      exact List.mem_map.mpr ⟨cs, hcs, rfl⟩
    rw [← split_trimSpaceChars] at hm
    obtain ⟨cs, hcs, heq⟩ := List.mem_map.mp hm
    refine ⟨String.mk cs, ?_, ?_⟩
    · unfold Go.split Go.trimSpace
      exact List.mem_map.mpr ⟨cs, hcs, rfl⟩
    · have : Go.trimSpace (String.mk cs) = Go.trimSpace tok := by
        unfold Go.trimSpace
        rw [heq]
      rw [this]
      exact h0
  unfold ReadModes
  simp only []
  by_cases h1 : Go.trimSpace (readLine stdin) = ""
  · exfalso
    rw [h1] at hex
    obtain ⟨p, hp, h0⟩ := hex
    have : p = "" := by
      have hs : Go.split "" ',' = [""] := by decide
      rw [hs] at hp
      simpa using hp
    subst this
    revert h0
    decide
  · simp only [h1, if_false]
    split_ifs
    · rfl
    · exact readModesLoop_zero _ [] [] hex

/-- Witness of C10 on the input line `1, 0 ,5` (scenario S4, with blanks around the 0). -/
theorem ReadModes_zero_exits_witness :
    ReadModes "1, 0 ,5\n" = { Modes := [], Exit := true } :=
  ReadModes_zero_exits "1, 0 ,5\n" ⟨" 0 ", by decide, by decide⟩

/-! ## Paths -/

theorem cleanChars_ne_nil (p : List Char) : Go.cleanChars p ≠ [] := by
  cases p with
  | nil => simp [Go.cleanChars]
  | cons c cs =>
    simp only [Go.cleanChars]
    split_ifs <;> simp_all

/-- Joining path elements of which one is not empty never gives the empty path. -/
theorem filepathJoin_ne_empty (d n : String) (hn : n ≠ "") : Go.filepathJoin [d, n] ≠ "" := by
  have key : ∀ p : List Char, String.mk (Go.cleanChars p) ≠ "" := by
    intro p h
    have := congrArg String.data h
    exact cleanChars_ne_nil p this
  unfold Go.filepathJoin
  by_cases hd : d = ""
  · subst hd
    simp only [List.dropWhile, decide_True, hn, decide_False]
    exact key _
  · simp only [List.dropWhile, hd, decide_False]
    exact key _

theorem splitChars_append_sep (sep : Char) (a b : List Char) :
    Go.splitChars sep (a ++ sep :: b) = Go.splitChars sep a ++ Go.splitChars sep b := by
  induction a with
  | nil => simp [Go.splitChars]
  | cons c a ih =>
    by_cases hc : c = sep
    · subst hc
      simp [Go.splitChars, ih]
    · obtain ⟨t, ts, h1, h2⟩ := splitChars_cons_ne sep c a hc
      obtain ⟨t', ts', h1', h2'⟩ := splitChars_cons_ne sep c (a ++ sep :: b) hc
      rw [List.cons_append, h2', h2]
      rw [h1', h1] at ih
      simp only [List.cons_append, List.cons.injEq] at ih
      obtain ⟨e1, e2⟩ := ih
      subst e1
      subst e2
      simp

theorem splitChars_no_sep (sep : Char) (n : List Char) (h : sep ∉ n) :
    Go.splitChars sep n = [n] := by
  induction n with
  | nil => rfl
  | cons c n ih =>
    have hc : c ≠ sep := fun e => h (by simp [e])
    have hn : sep ∉ n := fun e => h (List.mem_cons_of_mem _ e)
    obtain ⟨t, ts, h1, h2⟩ := splitChars_cons_ne sep c n hc
    rw [ih hn] at h1
    simp only [List.cons.injEq] at h1
    obtain ⟨rfl, rfl⟩ := h1
    exact h2

theorem slashJoin_concat (r : List (List Char)) (n : List Char) :
    Go.slashJoin (r ++ [n]) = (if r = [] then [] else Go.slashJoin r ++ ['/']) ++ n := by
  induction r with
  | nil => simp [Go.slashJoin]
  | cons a r ih =>
    cases r with
    | nil => simp [Go.slashJoin]
    | cons b r =>
      simp only [List.cons_append] at ih ⊢
      simp only [Go.slashJoin, ih]
      simp

theorem cleanPush_plain (rooted : Bool) (stack : List (List Char)) (n : List Char)
    (h : plainName n = true) : Go.cleanPush rooted stack n = n :: stack := by
  simp only [plainName, Bool.and_eq_true, decide_eq_true_eq] at h
  obtain ⟨⟨⟨h1, _⟩, h3⟩, h4⟩ := h
  simp [Go.cleanPush, h1, h3, h4]

/-- `filepath.Join(d, n)` for a plain name `n` is a text that depends on `d` only,
followed by `n`. -/
theorem filepathJoin_plain (d n : String) (h : plainName n.data = true) :
    (Go.filepathJoin [d, n]).data = joinDir d.data ++ n.data := by
  have hplain := h
  simp only [plainName, Bool.and_eq_true, decide_eq_true_eq] at h
  obtain ⟨⟨⟨h1, h2⟩, h3⟩, h4⟩ := h
  have hn : n ≠ "" := by
    intro e
    apply h1
    rw [e]
  unfold Go.filepathJoin
  by_cases hd : d = ""
  · subst hd
    simp only [List.dropWhile, decide_True, hn, decide_False]
    have hj : (Go.join [n] "/").data = n.data := rfl
    rw [hj]
    cases hnd : n.data with
    | nil => exact absurd hnd h1
    | cons c cs =>
      have hc : c ≠ '/' := by
        intro e
        apply h2
        rw [hnd, e]
        simp
      have hs : Go.splitChars '/' (c :: cs) = [c :: cs] := by
        apply splitChars_no_sep
        rw [← hnd]
        exact h2
      have hp : Go.cleanPush false [] (c :: cs) = [c :: cs] := by
        rw [← hnd]
        exact cleanPush_plain false [] n.data hplain
      simp [Go.cleanChars, hc, hs, Go.cleanElems, hp, Go.slashJoin, joinDir]
  · simp only [List.dropWhile, hd, decide_False]
    have hj : (Go.join [d, n] "/").data = d.data ++ '/' :: n.data := by
      show (d ++ "/" ++ n).data = _
      simp [String.data_append]
    rw [hj]
    cases hdd : d.data with
    | nil =>
      exfalso
      apply hd
      exact String.ext hdd
    | cons c cs =>
      have hs : Go.splitChars '/' (c :: cs ++ '/' :: n.data) =
          Go.splitChars '/' (c :: cs) ++ [n.data] := by
        rw [splitChars_append_sep, splitChars_no_sep '/' n.data h2]
      have hf : ∀ rooted : Bool,
          Go.cleanElems rooted (Go.splitChars '/' (c :: cs) ++ [n.data]) =
            Go.cleanElems rooted (Go.splitChars '/' (c :: cs)) ++ [n.data] := by
        intro rooted
        simp only [Go.cleanElems, List.foldl_append, List.foldl_cons, List.foldl_nil]
        rw [cleanPush_plain _ _ _ hplain]
        simp
      simp only [Go.cleanChars, List.cons_append, joinDir]
      rw [← List.cons_append, hs, hf, slashJoin_concat]
      by_cases hc : c = '/'
      · simp [hc]
      · simp only [hc, decide_False, Bool.false_eq_true, if_false, List.nil_append]
        by_cases h5 : Go.cleanElems false (Go.splitChars '/' (c :: cs)) = []
        · simp [h5, h1]
        · simp [h5, h1]

section ChainRule

variable {σ : Type}

theorem noteOutcome_runCommandLive (os : OS σ) (I : Chain σ → Prop)
    (hp : ∀ l s, I s → I (println l s))
    (label tool failName name : String) (args : List String) (st : Chain σ) (h : I st)
    (hx : ∀ s : Chain σ, s.world = st.world → I s → I (execNote os name args tool s)) :
    I (noteOutcome label tool failName (runCommandLive os name args st)) := by
  have hs := hx (println ("[CMD] " ++ name ++ " " ++ Go.join args " ") st) rfl (hp _ _ h)
  unfold noteOutcome runCommandLive
  simp only []
  unfold execNote at hs
  cases hr : (os.run (println ("[CMD] " ++ name ++ " " ++ Go.join args " ") st).world
      name args).1 with
  | none =>
    rw [hr] at hs
    exact hs
  | some err =>
    rw [hr] at hs
    exact hp _ _ hs

theorem noteOutcome_runShellLive (os : OS σ) (I : Chain σ → Prop)
    (hp : ∀ l s, I s → I (println l s))
    (label tool failName line : String) (st : Chain σ) (h : I st)
    (hx : ∀ s : Chain σ, s.world = st.world → I s →
      I (execNote os "sh" ["-c", line] tool s)) :
    I (noteOutcome label tool failName (runShellLive os line st)) := by
  have hs := hx (println ("[SHELL] " ++ line) st) rfl (hp _ _ h)
  unfold noteOutcome runShellLive
  simp only []
  unfold execNote at hs
  cases hr : (os.run (println ("[SHELL] " ++ line) st).world "sh" ["-c", line]).1 with
  | none =>
    rw [hr] at hs
    exact hs
  | some err =>
    rw [hr] at hs
    exact hp _ _ hs

theorem subfinderStep_inv (os : OS σ) (I : Chain σ → Prop)
    (hp : ∀ l s, I s → I (println l s))
    (label domain subs : String) (speed : Int) (st : Chain σ) (h : I st)
    (hx : ∀ s : Chain σ, hasTool os s.world "subfinder" = true → I s →
      I (execNote os "subfinder" (["-d", domain, "-o", subs] ++ speedArgs "-t" speed)
        "subfinder" s)) :
    I (subfinderStep os label domain subs speed st) := by
  unfold subfinderStep
  split_ifs with ht
  · apply noteOutcome_runCommandLive os I hp
    · exact hp _ _ h
    · intro s hs hI
      exact hx s (by rw [hs]; exact ht) hI
  · exact hp _ _ h

theorem httpxSubsStep_inv (os : OS σ) (I : Chain σ → Prop)
    (hp : ∀ l s, I s → I (println l s))
    (label stepName : String) (extra : List String) (subs hosts : String) (speed : Int)
    (st : Chain σ) (h : I st)
    (hx : ∀ s : Chain σ, hasTool os s.world "httpx" = true →
      fileExists os s.world subs = true → I s →
      I (execNote os "httpx"
        (["-l", subs, "-o", hosts, "-mc", "200"] ++ extra ++ speedArgs "-t" speed)
        "httpx" s)) :
    I (httpxSubsStep os label stepName extra subs hosts speed st) := by
  unfold httpxSubsStep
  split_ifs with ht ht2
  · rw [Bool.and_eq_true] at ht
    apply noteOutcome_runCommandLive os I hp
    · exact hp _ _ h
    · intro s hs hI
      exact hx s (by rw [hs]; exact ht.1) (by rw [hs]; exact ht.2) hI
  · exact hp _ _ h
  · exact h

theorem gfStep_inv (os : OS σ) (I : Chain σ → Prop)
    (hp : ∀ l s, I s → I (println l s))
    (label tag gauOut gfOut : String) (st : Chain σ) (h : I st)
    (hx : ∀ s : Chain σ, hasTool os s.world "gf" = true →
      fileExists os s.world gauOut = true → I s →
      I (execNote os "sh" ["-c", gfLine tag gauOut gfOut] "gf" s)) :
    I (gfStep os label tag gauOut gfOut st) := by
  unfold gfStep
  split_ifs with ht ht2
  · rw [Bool.and_eq_true] at ht
    apply noteOutcome_runShellLive os I hp
    · exact hp _ _ h
    · intro s hs hI
      exact hx s (by rw [hs]; exact ht.1) (by rw [hs]; exact ht.2) hI
  · exact hp _ _ h
  · exact h

theorem gauSkipped_inv (os : OS σ) (I : Chain σ → Prop)
    (hp : ∀ l s, I s → I (println l s))
    (label tag hosts : String) (st : Chain σ) (h : I st) :
    I (gauSkipped os label tag hosts st) := by
  have key : ∀ (b : Bool) (l : String) (s : Chain σ), I s →
      I (if b = true then println l s else s) := by
    intro b l s hs
    split_ifs
    · exact hp _ _ hs
    · exact hs
  exact key _ _ _ (key _ _ _ (key _ _ _ h))

theorem gauGfStep_inv (os : OS σ) (I : Chain σ → Prop)
    (hp : ∀ l s, I s → I (println l s))
    (label tag : String) (withElse : Bool) (tmpDir hosts gfOut : String) (speed : Int)
    (st : Chain σ) (h : I st)
    (hgau : ∀ s : Chain σ, hasTool os s.world "gau" = true →
      fileExists os s.world hosts = true → I s →
      I (execNote os "sh"
        ["-c", gauLine hosts (Go.filepathJoin [tmpDir, "gau_" ++ tag ++ ".txt"]) speed]
        "gau" s))
    (hgf : ∀ s : Chain σ, hasTool os s.world "gf" = true →
      fileExists os s.world (Go.filepathJoin [tmpDir, "gau_" ++ tag ++ ".txt"]) = true →
      I s →
      I (execNote os "sh"
        ["-c", gfLine tag (Go.filepathJoin [tmpDir, "gau_" ++ tag ++ ".txt"]) gfOut]
        "gf" s)) :
    I (gauGfStep os label tag withElse tmpDir hosts gfOut speed st) := by
  unfold gauGfStep
  split_ifs with ht ht2
  · rw [Bool.and_eq_true] at ht
    apply gfStep_inv os I hp
    · apply noteOutcome_runShellLive os I hp
      · exact hp _ _ h
      · intro s hs hI
        exact hgau s (by rw [hs]; exact ht.1) (by rw [hs]; exact ht.2) hI
    · exact hgf
  · exact gauSkipped_inv os I hp _ _ _ _ h
  · exact h

theorem httpxGfStep_inv (os : OS σ) (I : Chain σ → Prop)
    (hp : ∀ l s, I s → I (println l s))
    (label tag gfOut clean : String) (speed : Int) (st : Chain σ) (h : I st)
    (hx : ∀ s : Chain σ, hasTool os s.world "httpx" = true →
      fileExists os s.world gfOut = true → I s →
      I (execNote os "httpx"
        (["-l", gfOut, "-o", clean, "-mc", "200"] ++ speedArgs "-t" speed) "httpx" s)) :
    I (httpxGfStep os label tag gfOut clean speed st) := by
  unfold httpxGfStep
  split_ifs with ht
  · rw [Bool.and_eq_true] at ht
    apply noteOutcome_runCommandLive os I hp
    · exact hp _ _ h
    · intro s hs hI
      exact hx s (by rw [hs]; exact ht.1) (by rw [hs]; exact ht.2) hI
  · exact h

theorem nucleiStep_inv (os : OS σ) (I : Chain σ → Prop)
    (hp : ∀ l s, I s → I (println l s))
    (label list : String) (severity : List String) (tags resultsDir : String)
    (speed : Int) (st : Chain σ) (h : I st)
    (hx : ∀ s : Chain σ, hasTool os s.world "nuclei" = true → s.world = st.world → I s →
      I (execNote os "nuclei"
        (nucleiArgs list severity tags (Go.filepathJoin [resultsDir, "nuclei.json"]) speed)
        "nuclei" s)) :
    I (nucleiStep os label list severity tags resultsDir speed st) := by
  unfold nucleiStep
  split_ifs with ht
  · apply noteOutcome_runCommandLive os I hp
    · exact hp _ _ h
    · intro s hs hI
      exact hx s (by rw [hs]; exact ht) hs hI
  · exact hp _ _ h

theorem dalfoxStep_inv (os : OS σ) (I : Chain σ → Prop)
    (hp : ∀ l s, I s → I (println l s))
    (label list resultsDir : String) (speed : Int) (st : Chain σ) (h : I st)
    (hx : ∀ s : Chain σ, hasTool os s.world "dalfox" = true → I s →
      I (execNote os "dalfox"
        ["file", list, "--skip-mining-all", "--custom-payload",
          Go.filepathJoin [buildBugxBaseDir os s.world, "wordlist", "xss.txt"],
          "-w", Go.sprintInt (maxInt speed 1), "-o",
          Go.filepathJoin [resultsDir, "dalfox.json"]] "dalfox" s)) :
    I (dalfoxStep os label list resultsDir speed st) := by
  unfold dalfoxStep
  split_ifs with ht
  · apply noteOutcome_runCommandLive os I hp
    · exact hp _ _ h
    · intro s hs hI
      have := hx s (by rw [hs]; exact ht) hI
      rw [hs] at this
      exact this
  · exact hp _ _ h

/-- The blocks before the list is chosen keep every property that prints and allowed
invocations keep. -/
theorem collect_inv (c : ChainSpec) (os : OS σ) (w : σ) (target : String) (speed : Int)
    (I : Chain σ → Prop) (hp : ∀ l s, I s → I (println l s))
    (hx : ∀ st name args tool, c.Allowed os w target speed st name args tool → I st →
      I (execNote os name args tool st))
    (st : Chain σ) (h : I st) : I (c.collect os w target speed st) := by
  have h1 : I (subfinderStep os c.label (extractDomain target) (c.subs os w target) speed st) :=
    subfinderStep_inv os I hp _ _ _ _ _ h
      (fun s ht hI => hx s _ _ _ (ChainSpec.Allowed.subfinder s ht) hI)
  have h2 := httpxSubsStep_inv os I hp c.label c.httpxName c.httpxExtra (c.subs os w target)
    (c.hosts os w target) speed _ h1
    (fun s ht hf hI => hx s _ _ _ (ChainSpec.Allowed.httpxSubs s ht hf) hI)
  unfold ChainSpec.collect
  simp only []
  split_ifs
  · apply httpxGfStep_inv os I hp
    · apply gauGfStep_inv os I hp
      · exact h2
      · exact fun s ht hf hI => hx s _ _ _ (ChainSpec.Allowed.gau s ht hf) hI
      · exact fun s ht hf hI => hx s _ _ _ (ChainSpec.Allowed.gf s ht hf) hI
    · exact fun s ht hf hI => hx s _ _ _ (ChainSpec.Allowed.httpxGf s ht hf) hI
  · exact h2

/-- A chain with a valid target reaches its `return` in a state that has every
property which holds after the opening banner and is kept by prints and by allowed
invocations. -/
theorem final_inv (c : ChainSpec) (os : OS σ) (w : σ) (target : String) (speed : Int)
    (I : Chain σ → Prop) (hp : ∀ l s, I s → I (println l s))
    (hx : ∀ st name args tool, c.Allowed os w target speed st name args tool → I st →
      I (execNote os name args tool st))
    (h0 : I { world := os.mkdirAll w (c.resultsDir os w target),
              trace := [Event.print c.openBanner], used := [] }) :
    I (c.final os w target speed) := by
  have hc : I (c.collected os w target speed) := collect_inv c os w target speed I hp hx _ h0
  unfold ChainSpec.final
  simp only []
  split_ifs with hl
  · exact hp _ _ (hp _ _ hc)
  · apply hp
    unfold ChainSpec.scan
    simp only []
    have hn : I (nucleiStep os c.label (c.chosenList os w target speed) c.severity c.tags
        (c.resultsDir os w target) speed (c.collected os w target speed)) :=
      nucleiStep_inv os I hp _ _ _ _ _ _ _ hc
        (fun s ht hs hI => hx s _ _ _ (ChainSpec.Allowed.nuclei s ht hl hs) hI)
    split_ifs with hd
    · exact dalfoxStep_inv os I hp _ _ _ _ _ hn
        (fun s ht hI => hx s _ _ _ (ChainSpec.Allowed.dalfox s ht hd hl) hI)
    · exact hn

end ChainRule

/-! ## `unique` -/

theorem mem_uniqueLoop (x : String) (l : List String) :
    ∀ seen out : List String, (∀ y, y ∈ seen ↔ y ∈ out) →
      (x ∈ uniqueLoop l seen out ↔ x ∈ out ∨ (x ∈ l ∧ x ≠ "")) := by
  induction l with
  | nil => intro seen out _; simp [uniqueLoop]
  | cons v vs ih =>
    intro seen out hso
    unfold uniqueLoop
    split_ifs with hv hs
    · rw [ih seen out hso]
      subst hv
      constructor
      · rintro (h | ⟨h, hx⟩)
        · exact Or.inl h
        · exact Or.inr ⟨List.mem_cons_of_mem _ h, hx⟩
      · rintro (h | ⟨h, hx⟩)
        · exact Or.inl h
        · rcases List.mem_cons.mp h with rfl | h
          · exact absurd rfl hx
          · exact Or.inr ⟨h, hx⟩
    · rw [ih seen out hso]
      have hvo : v ∈ out := (hso v).mp hs
      constructor
      · rintro (h | ⟨h, hx⟩)
        · exact Or.inl h
        · exact Or.inr ⟨List.mem_cons_of_mem _ h, hx⟩
      · rintro (h | ⟨h, hx⟩)
        · exact Or.inl h
        · rcases List.mem_cons.mp h with rfl | h
          · exact Or.inl hvo
          · exact Or.inr ⟨h, hx⟩
    · have hso' : ∀ y, y ∈ v :: seen ↔ y ∈ out ++ [v] := by
        intro y
        simp only [List.mem_cons, List.mem_append, List.not_mem_nil, or_false, hso y]
        constructor
        · rintro (h | h)
          · exact Or.inr h
          · exact Or.inl h
        · rintro (h | h)
          · exact Or.inr h
          · exact Or.inl h
      rw [ih (v :: seen) (out ++ [v]) hso']
      simp only [List.mem_append, List.mem_cons, List.not_mem_nil, or_false]
      constructor
      · rintro ((h | h) | ⟨h, hx⟩)
        · exact Or.inl h
        · subst h; exact Or.inr ⟨Or.inl rfl, hv⟩
        · exact Or.inr ⟨Or.inr h, hx⟩
      · rintro (h | ⟨h | h, hx⟩)
        · exact Or.inl (Or.inl h)
        · exact Or.inl (Or.inr h)
        · exact Or.inr ⟨h, hx⟩

/-- The members of `unique list` are the non-empty members of `list`, when `list`
holds a non-empty string or is empty. -/
theorem mem_unique (x : String) (hx : x ≠ "") (l : List String) :
    x ∈ unique l ↔ x ∈ l := by
  unfold unique
  split_ifs with h
  · rfl
  · rw [mem_uniqueLoop x l [] [] (fun y => Iff.rfl)]
    simp [hx]

/-- The slice returned by `unique` never holds the empty string. -/
theorem empty_not_mem_unique (l : List String) : "" ∉ unique l := by
  unfold unique
  split_ifs with h0
  · rw [List.length_eq_zero] at h0
    subst h0
    simp
  · rw [mem_uniqueLoop "" l [] [] (fun y => Iff.rfl)]
    simp

/-! ## The gau line and the gf line of a chain differ -/

theorem replaceAllChar_append (a b : List Char) (old : Char) (new : List Char) :
    Go.replaceAllChar (a ++ b) old new =
      Go.replaceAllChar a old new ++ Go.replaceAllChar b old new := by
  simp [Go.replaceAllChar, List.flatMap_append]

theorem replaceAllChar_not_mem (a : List Char) (old : Char) (new : List Char)
    (h : old ∉ a) : Go.replaceAllChar a old new = a := by
  induction a with
  | nil => rfl
  | cons c a ih =>
    have hc : c ≠ old := fun e => h (by simp [e])
    have ha : old ∉ a := fun e => h (List.mem_cons_of_mem _ e)
    have := ih ha
    simp only [Go.replaceAllChar] at this ⊢
    simp [List.flatMap_cons, hc, this]

theorem escapeShell_data (s : String) :
    (escapeShell s).data =
      quoteChar :: (Go.replaceAllChar s.data quoteChar [quoteChar, '\\', quoteChar, quoteChar]
        ++ [quoteChar]) := by
  unfold escapeShell
  split_ifs with h
  · subst h
    rfl
  · rfl

theorem gau_gf_suffix_ne (X Y T : List Char) :
    X ++ ['g', 'a', 'u', '_'] ++ T ≠ Y ++ ['g', 'f', '_'] ++ T := by
  intro h
  have h1 := List.append_cancel_right h
  have h2 := congrArg List.reverse h1
  simp at h2

/-- The shell line of the gau step is never the shell line of the gf step. -/
theorem gauLine_ne_gfLine (d hosts tag : String) (speed : Int)
    (h1 : plainName ("gau_" ++ tag ++ ".txt").data = true)
    (h2 : plainName ("gf_" ++ tag ++ ".txt").data = true)
    (hq : quoteChar ∉ tag.data) :
    gauLine hosts (Go.filepathJoin [d, "gau_" ++ tag ++ ".txt"]) speed ≠
      gfLine tag (Go.filepathJoin [d, "gau_" ++ tag ++ ".txt"])
        (Go.filepathJoin [d, "gf_" ++ tag ++ ".txt"]) := by
  intro h
  have hd := congrArg String.data h
  have e1 : ("gau_" ++ tag ++ ".txt").data = ['g', 'a', 'u', '_'] ++ (tag.data ++ ".txt".data) := by
    simp [String.data_append]
  have e2 : ("gf_" ++ tag ++ ".txt").data = ['g', 'f', '_'] ++ (tag.data ++ ".txt".data) := by
    simp [String.data_append]
  have r1 : Go.replaceAllChar (['g', 'a', 'u', '_'] ++ (tag.data ++ ".txt".data)) quoteChar
      [quoteChar, '\\', quoteChar, quoteChar] =
      ['g', 'a', 'u', '_'] ++ (tag.data ++ ".txt".data) := by
    apply replaceAllChar_not_mem
    simp only [List.mem_append, not_or]
    exact ⟨by decide, hq, by decide⟩
  have r2 : Go.replaceAllChar (['g', 'f', '_'] ++ (tag.data ++ ".txt".data)) quoteChar
      [quoteChar, '\\', quoteChar, quoteChar] =
      ['g', 'f', '_'] ++ (tag.data ++ ".txt".data) := by
    apply replaceAllChar_not_mem
    simp only [List.mem_append, not_or]
    exact ⟨by decide, hq, by decide⟩
  unfold gauLine gfLine at hd
  simp only [String.data_append, escapeShell_data, filepathJoin_plain d _ h1,
    filepathJoin_plain d _ h2, e1, e2, replaceAllChar_append, r1, r2] at hd
  refine gau_gf_suffix_ne
    (("cat ".data ++ quoteChar :: (Go.replaceAllChar hosts.data quoteChar
        [quoteChar, '\\', quoteChar, quoteChar] ++ [quoteChar]) ++
      " | gau --threads ".data ++ (Go.sprintInt (maxInt speed 1)).data ++
      " --verbose > ".data) ++ quoteChar :: Go.replaceAllChar (joinDir d.data) quoteChar
        [quoteChar, '\\', quoteChar, quoteChar])
    (("cat ".data ++ quoteChar :: (Go.replaceAllChar (joinDir d.data) quoteChar
        [quoteChar, '\\', quoteChar, quoteChar] ++ (['g', 'a', 'u', '_'] ++
          (tag.data ++ ".txt".data)) ++ [quoteChar]) ++ " | gf ".data ++ tag.data ++
      " > ".data) ++ quoteChar :: Go.replaceAllChar (joinDir d.data) quoteChar
        [quoteChar, '\\', quoteChar, quoteChar])
    (tag.data ++ ".txt".data ++ [quoteChar]) ?_
  simpa [List.append_assoc] using hd

/-! ## C1: tool-use accounting -/

section Accounting

variable {σ : Type}

theorem chain_lines_ne (c : ChainSpec) (hc : c ∈ chainSpecs) (os : OS σ) (w : σ)
    (target : String) (speed : Int) :
    gauLine (c.hosts os w target) (c.gauOut os w target) speed ≠
      gfLine c.mode (c.gauOut os w target) (c.gfOut os w target) := by
  simp only [chainSpecs, List.mem_cons, List.mem_singleton, List.not_mem_nil, or_false] at hc
  rcases hc with rfl | rfl | rfl | rfl | rfl | rfl | rfl | rfl <;>
    exact gauLine_ne_gfLine _ _ _ _ (by decide) (by decide) (by decide)

theorem exists_mem_concat {α : Type} (l : List α) (x : α) (P : α → Prop) :
    (∃ e ∈ l ++ [x], P e) ↔ (∃ e ∈ l, P e) ∨ P x := by
  constructor
  · rintro ⟨e, he, hP⟩
    rcases List.mem_append.mp he with h | h
    · exact Or.inl ⟨e, h, hP⟩
    · rw [List.mem_singleton] at h
      subst h
      exact Or.inr hP
  · rintro (⟨e, he, hP⟩ | hP)
    · exact ⟨e, List.mem_append_left _ he, hP⟩
    · exact ⟨x, List.mem_append_right _ (List.mem_singleton.mpr rfl), hP⟩

/-- An allowed invocation counts as a successful invocation of `b` exactly when its
error is nil and `b` is the tool it was made for. -/
theorem succeededFor_allowed (c : ChainSpec) (hc : c ∈ chainSpecs) (os : OS σ) (w : σ)
    (target : String) (speed : Int) (st : Chain σ) (name : String) (args : List String)
    (tool : String) (hA : c.Allowed os w target speed st name args tool)
    (b : String) (hb : b ∈ allTools) (w0 : σ) (err : Option String) :
    c.succeededFor os w target speed b (Event.exec w0 name args err) = true ↔
      (err = none ∧ b = tool) := by
  have hne := chain_lines_ne c hc os w target speed
  have hne' := hne.symm
  simp only [allTools, List.mem_cons, List.mem_singleton, List.not_mem_nil, or_false] at hb
  cases hA <;> rcases hb with rfl | rfl | rfl | rfl | rfl | rfl <;>
    simp [ChainSpec.succeededFor, hne, hne', Option.isNone_iff_eq_none]

/-- C1. For each of the eight mode chains, every target with a non-empty extracted
host, every speed and every environment, a binary name among subfinder, httpx, gau,
gf, nuclei, dalfox is in the list the chain returns if and only if at least one
invocation of that binary made during the chain returned a nil error. -/
theorem chain_used_iff_succeeded (os : OS σ) (w : σ) (target : String) (speed : Int)
    (c : ChainSpec) (hc : c ∈ chainSpecs) (hdom : extractDomain target ≠ "")
    (b : String) (hb : b ∈ allTools) :
    b ∈ (runChain os c target speed w).tools ↔
      ∃ e ∈ (runChain os c target speed w).trace,
        c.succeededFor os w target speed b e = true := by
  have hI := final_inv c os w target speed
    (fun st => ∀ b ∈ allTools, (b ∈ st.used ↔
      ∃ e ∈ st.trace, c.succeededFor os w target speed b e = true))
    (by
      intro l s h b hb
      show b ∈ s.used ↔ ∃ e ∈ s.trace ++ [Event.print l], _
      rw [h b hb, exists_mem_concat]
      simp [ChainSpec.succeededFor])
    (by
      intro st name args tool hA h b hb
      have key := succeededFor_allowed c hc os w target speed st name args tool hA b hb
        st.world (os.run st.world name args).1
      show b ∈ (execNote os name args tool st).used ↔
        ∃ e ∈ st.trace ++ [Event.exec st.world name args (os.run st.world name args).1], _
      rw [exists_mem_concat, key, ← h b hb]
      unfold execNote
      cases hr : (os.run st.world name args).1 with
      | none => simp
      | some err => simp)
    (by
      intro b hb
      simp [ChainSpec.succeededFor])
  have hbne : b ≠ "" := by
    rintro rfl
    revert hb
    decide
  unfold runChain
  simp only [hdom, if_false]
  unfold finishChain
  simp only []
  rw [mem_unique b hbne]
  exact hI b hb

/-- Witness of C1: the XSS chain on `https://a.test` at speed 10 in the concrete world
with every tool on PATH, for the binary httpx. -/
theorem chain_used_iff_succeeded_witness :
    "httpx" ∈ (runChain (simOS [] false) specXSS "https://a.test" 10 ⟨allTools, []⟩).tools ∧
    ("httpx" ∈ (runChain (simOS [] false) specXSS "https://a.test" 10 ⟨allTools, []⟩).tools ↔
      ∃ e ∈ (runChain (simOS [] false) specXSS "https://a.test" 10 ⟨allTools, []⟩).trace,
        specXSS.succeededFor (simOS [] false) ⟨allTools, []⟩ "https://a.test" 10 "httpx" e
          = true) :=
  ⟨by decide,
   chain_used_iff_succeeded (simOS [] false) ⟨allTools, []⟩ "https://a.test" 10 specXSS
     (by decide) (by decide) "httpx" (by decide)⟩

end Accounting

/-! ## C2: the list returned by `RunModes` -/

section UsedTools

variable {σ : Type}

theorem empty_not_mem_runChain (os : OS σ) (c : ChainSpec) (target : String) (speed : Int)
    (w : σ) : "" ∉ (runChain os c target speed w).tools := by
  unfold runChain
  split_ifs
  · simp
  · exact empty_not_mem_unique _

theorem foldl_mapInsert (tools : List String) :
    ∀ keys : List String, keys.Nodup → "" ∉ keys → "" ∉ tools →
      (tools.foldl mapInsert keys).Nodup ∧ "" ∉ tools.foldl mapInsert keys := by
  induction tools with
  | nil => intro keys h1 h2 _; exact ⟨h1, h2⟩
  | cons t ts ih =>
    intro keys h1 h2 h3
    rw [List.foldl_cons]
    apply ih
    · exact nodup_mapInsert keys t h1
    · rw [mem_mapInsert]
      rintro (h | h)
      · exact h2 h
      · exact h3 (by rw [h]; exact List.mem_cons_self _ _)
    · exact fun h => h3 (List.mem_cons_of_mem _ h)

theorem runModesLoop_used (os : OS σ) (target : String) (speed : Int) (modes : List Int) :
    ∀ st : RunState σ, st.used.Nodup → "" ∉ st.used →
      (modes.foldl (runModesStep os target speed) st).used.Nodup ∧
      "" ∉ (modes.foldl (runModesStep os target speed) st).used := by
  induction modes with
  | nil => intro st h1 h2; exact ⟨h1, h2⟩
  | cons m ms ih =>
    intro st h1 h2
    rw [List.foldl_cons]
    have hstep : (runModesStep os target speed st m).used.Nodup ∧
        "" ∉ (runModesStep os target speed st m).used := by
      unfold runModesStep
      split_ifs <;> first
        | exact ⟨h1, h2⟩
        | exact foldl_mapInsert _ _ h1 h2 (empty_not_mem_runChain os _ target speed _)
    exact ih _ hstep.1 hstep.2

/-- C2. For every mode list, target, speed and environment, and for every order in
which the final `range` visits the map, the list returned by `RunModes` holds no
element twice and does not hold the empty string. -/
theorem RunModes_nodup_nonempty (os : OS σ) (ord : RangeOrder) (modes : List Int)
    (target : String) (speed : Int) (w : σ) :
    (RunModes os ord modes target speed w).Nodup ∧
    "" ∉ RunModes os ord modes target speed w := by
  obtain ⟨h1, h2⟩ := runModesLoop_used os target speed modes
    { used := [], world := w, trace := [] } List.nodup_nil (by simp)
  unfold RunModes runModesLoop
  exact ⟨(ord.perm _).nodup_iff.mpr h1, fun h => h2 ((ord.perm _).mem_iff.mp h)⟩

end UsedTools

/-! ## C3: a step runs only when its binary and its input are present -/

section Guards

variable {σ : Type}

theorem chooseFirstExisting_exists (os : OS σ) (w : σ) (ps : List String)
    (h : chooseFirstExisting os w ps ≠ "") :
    fileExists os w (chooseFirstExisting os w ps) = true := by
  induction ps with
  | nil => exact absurd rfl h
  | cons p ps ih =>
    unfold chooseFirstExisting at h ⊢
    split_ifs at h ⊢ with hp
    · exact hp
    · exact ih h

theorem chosenList_exists (c : ChainSpec) (os : OS σ) (w : σ) (target : String)
    (speed : Int) (h : c.chosenList os w target speed ≠ "") :
    fileExists os (c.collected os w target speed).world (c.chosenList os w target speed)
      = true :=
  chooseFirstExisting_exists os _ _ h

theorem stepReady_allowed (c : ChainSpec) (os : OS σ) (w : σ) (target : String)
    (speed : Int) (st : Chain σ) (name : String) (args : List String) (tool : String)
    (hA : c.Allowed os w target speed st name args tool) (err : Option String) :
    c.stepReady os w target speed true (Event.exec st.world name args err) = true := by
  cases hA with
  | subfinder ht => simp [ChainSpec.stepReady, ht]
  | httpxSubs ht hf => simp [ChainSpec.stepReady, ht, hf]
  | gau ht hf => simp [ChainSpec.stepReady, ht, hf]
  | gf ht hf => simp [ChainSpec.stepReady, ht, hf]
  | httpxGf ht hf => simp [ChainSpec.stepReady, ht, hf]
  | nuclei ht hl hw =>
    have := chosenList_exists c os w target speed hl
    rw [hw] at ht
    simp [ChainSpec.stepReady, ht, nucleiArgs, hw, this]
  | dalfox ht hd hl =>
    have := chosenList_exists c os w target speed hl
    simp [ChainSpec.stepReady, ht, this]

/-- C3, amended. In every mode chain and every environment, whenever a process is run,
at that moment the binary of its step is reported present by `hasTool` and the input
file of its step (subs.txt for the first httpx, hosts.txt for gau, gau_TAG.txt for gf,
gf_TAG.txt for the second httpx, the chosen list for nuclei) is reported present by
`fileExists`; subfinder has no input file; for dalfox the chosen list was reported
present by `fileExists` when it was chosen, before nuclei ran. -/
theorem chain_steps_ready (os : OS σ) (w : σ) (target : String) (speed : Int)
    (c : ChainSpec) (e : Event σ) (he : e ∈ (runChain os c target speed w).trace) :
    c.stepReady os w target speed true e = true := by
  unfold runChain at he
  split_ifs at he with hdom
  · simp only [List.mem_cons, List.mem_singleton, List.not_mem_nil, or_false] at he
    rcases he with rfl | rfl | rfl <;> rfl
  · have hI := final_inv c os w target speed
      (fun st => ∀ e ∈ st.trace, c.stepReady os w target speed true e = true)
      (by
        intro l s h e he
        rcases List.mem_append.mp he with h1 | h1
        · exact h e h1
        · rw [List.mem_singleton] at h1
          subst h1
          rfl)
      (by
        intro st name args tool hA h e he
        rcases List.mem_append.mp he with h1 | h1
        · exact h e h1
        · rw [List.mem_singleton] at h1
          subst h1
          exact stepReady_allowed c os w target speed st name args tool hA _)
      (by
        intro e he
        rw [List.mem_singleton] at he
        subst he
        rfl)
    exact hI e he

/-- Witness of the amended C3: the dalfox invocation of that run. -/
theorem chain_steps_ready_witness :
    dalfoxAfterNuclei ∈
      (runChain (simOS [] true) specXSS "https://a.test" 10 ⟨allTools, []⟩).trace ∧
    specXSS.stepReady (simOS [] true) ⟨allTools, []⟩ "https://a.test" 10 true
      dalfoxAfterNuclei = true :=
  ⟨by decide,
   chain_steps_ready (simOS [] true) ⟨allTools, []⟩ "https://a.test" 10 specXSS
     dalfoxAfterNuclei (by decide)⟩

/-- Counterexample to C3 as stated: in that run dalfox is invoked on the list
`hosts.txt` with dalfox on PATH, in a world where `fileExists` reports the list absent
(nuclei has removed it, and the chain does not look again). -/
theorem dalfox_runs_without_list :
    dalfoxAfterNuclei ∈
      (runXSSChain (simOS [] true) "https://a.test" 10 ⟨allTools, []⟩).trace ∧
    specXSS.chosenList (simOS [] true) ⟨allTools, []⟩ "https://a.test" 10 =
      "/tmp/BUGx-xss-a.test-1/hosts.txt" ∧
    fileExists (simOS [] true) ⟨allTools, ["/tmp/BUGx-xss-a.test-1/subs.txt"]⟩
      "/tmp/BUGx-xss-a.test-1/hosts.txt" = false ∧
    specXSS.stepReady (simOS [] true) ⟨allTools, []⟩ "https://a.test" 10 false
      dalfoxAfterNuclei = false := by
  decide

end Guards

/-! ## C4: the temporary directory is removed on every return path -/

section TempDir

variable {σ : Type}

theorem buildTempDir_ne_empty (os : OS σ) (w : σ) (domain mode : String) :
    buildTempDir os w domain mode ≠ "" := by
  unfold buildTempDir
  apply filepathJoin_ne_empty
  intro h
  have := congrArg String.data h
  simp [String.data_append] at this

/-- C4. For every mode chain with a valid target and every environment, on every
return path (no candidate list, or the scan done, with any combination of skipped or
failed steps): the temporary directory path is not empty, and the world the chain
returns in is the world at its `return` statement after `os.RemoveAll` on that path;
hence, in every environment in which `os.RemoveAll` removes the path it is given, the
temporary directory path does not exist when the chain returns. -/
theorem chain_tmpDir_removed (os : OS σ) (w : σ) (target : String) (speed : Int)
    (c : ChainSpec) (hdom : extractDomain target ≠ "") :
    c.tmpDir os w target ≠ "" ∧
    (runChain os c target speed w).world =
      os.removeAll (c.final os w target speed).world (c.tmpDir os w target) ∧
    ((∀ (w1 : σ) (dir : String), os.stat (os.removeAll w1 dir) dir = none) →
      os.stat (runChain os c target speed w).world (c.tmpDir os w target) = none ∧
      fileExists os (runChain os c target speed w).world (c.tmpDir os w target) = false) := by
  have hne : c.tmpDir os w target ≠ "" := buildTempDir_ne_empty os w _ _
  have hw : (runChain os c target speed w).world =
      os.removeAll (c.final os w target speed).world (c.tmpDir os w target) := by
    unfold runChain
    simp only [hdom, if_false]
    unfold finishChain cleanupTempDir
    simp only [hne, if_false]
  refine ⟨hne, hw, ?_⟩
  intro hrm
  have h1 : os.stat (runChain os c target speed w).world (c.tmpDir os w target) = none := by
    rw [hw]
    exact hrm _ _
  refine ⟨h1, ?_⟩
  unfold fileExists
  rw [h1]
  simp

theorem simOS_removeAll (failing : List String) (b : Bool) (w : SimWorld) (dir : String) :
    (simOS failing b).stat ((simOS failing b).removeAll w dir) dir = none := by
  simp [simOS, atOrBelow]

theorem simDirOS_removeAll (failing : List String) (b : Bool) (w : SimWorld) (dir : String) :
    (simDirOS failing b).stat ((simDirOS failing b).removeAll w dir) dir = none := by
  simp [simDirOS, simOS, simStat, atOrBelow, below]
  intro x _ _ h hp
  rw [List.isPrefixOf_iff_prefix.mpr hp] at h
  exact Bool.noConfusion h

/-- Witness of C4: the XSS chain on `https://a.test` in the concrete world with
directories and every tool on PATH. The temporary directory exists at the `return`
statement, since subfinder and httpx have written into it, and is gone when the chain
has returned. -/
theorem chain_tmpDir_removed_witness :
    extractDomain "https://a.test" ≠ "" ∧
    specXSS.tmpDir (simDirOS [] false) ⟨allTools, []⟩ "https://a.test" =
      "/tmp/BUGx-xss-a.test-1" ∧
    (simDirOS [] false).stat
      (specXSS.final (simDirOS [] false) ⟨allTools, []⟩ "https://a.test" 10).world
      "/tmp/BUGx-xss-a.test-1" = some true ∧
    ((simDirOS [] false).stat
        (runChain (simDirOS [] false) specXSS "https://a.test" 10 ⟨allTools, []⟩).world
        (specXSS.tmpDir (simDirOS [] false) ⟨allTools, []⟩ "https://a.test") = none ∧
      fileExists (simDirOS [] false)
        (runChain (simDirOS [] false) specXSS "https://a.test" 10 ⟨allTools, []⟩).world
        (specXSS.tmpDir (simDirOS [] false) ⟨allTools, []⟩ "https://a.test") = false) :=
  ⟨by decide, by decide, by decide,
   (chain_tmpDir_removed (simDirOS [] false) ⟨allTools, []⟩ "https://a.test" 10 specXSS
     (by decide)).2.2 (simDirOS_removeAll [] false)⟩

/-- Counterexample to C4 as stated for every environment: where `os.RemoveAll` fails,
the temporary directory of the XSS chain on `https://a.test`, into which subfinder and
httpx have written, still exists when the chain has returned, with `subs.txt` in it. -/
theorem tmpDir_left_behind :
    specXSS.tmpDir (stuckOS [] false) ⟨allTools, []⟩ "https://a.test" =
      "/tmp/BUGx-xss-a.test-1" ∧
    (stuckOS [] false).stat
      (runChain (stuckOS [] false) specXSS "https://a.test" 10 ⟨allTools, []⟩).world
      "/tmp/BUGx-xss-a.test-1" = some true ∧
    fileExists (stuckOS [] false)
      (runChain (stuckOS [] false) specXSS "https://a.test" 10 ⟨allTools, []⟩).world
      "/tmp/BUGx-xss-a.test-1/subs.txt" = true := by
  decide

/-- Lower-casing changes none of the mode names that the chains give to
`buildModeResultsDir`. -/
theorem toLower_mode (c : ChainSpec) (h : c ∈ chainSpecs) : Go.toLower c.mode = c.mode := by
  simp only [chainSpecs, List.mem_cons, List.mem_singleton, List.not_mem_nil, or_false] at h
  rcases h with h | h | h | h | h | h | h | h <;> rw [h] <;> decide

end TempDir

/-! ## C5: the list given to nuclei and dalfox -/

section ScanList

variable {σ : Type}

/-- Every process run by a chain is an allowed invocation. -/
theorem runChain_trace_allowed (os : OS σ) (c : ChainSpec) (target : String) (speed : Int)
    (w : σ) (e : Event σ) (he : e ∈ (runChain os c target speed w).trace) :
    (∃ l, e = Event.print l) ∨
      ∃ (s : Chain σ) (name : String) (args : List String) (tool : String)
        (err : Option String),
        e = Event.exec s.world name args err ∧ c.Allowed os w target speed s name args tool := by
  unfold runChain at he
  split_ifs at he with hdom
  · simp only [List.mem_cons, List.mem_singleton, List.not_mem_nil, or_false] at he
    rcases he with rfl | rfl | rfl <;> exact Or.inl ⟨_, rfl⟩
  · have hI := final_inv c os w target speed
      (fun st => ∀ e ∈ st.trace, (∃ l, e = Event.print l) ∨
        ∃ (s : Chain σ) (name : String) (args : List String) (tool : String)
          (err : Option String),
          e = Event.exec s.world name args err ∧
            c.Allowed os w target speed s name args tool)
      (by
        intro l s h e he
        rcases List.mem_append.mp he with h1 | h1
        · exact h e h1
        · rw [List.mem_singleton] at h1
          exact Or.inl ⟨l, h1⟩)
      (by
        intro st name args tool hA h e he
        rcases List.mem_append.mp he with h1 | h1
        · exact h e h1
        · rw [List.mem_singleton] at h1
          exact Or.inr ⟨st, name, args, tool, _, h1, hA⟩)
      (by
        intro e he
        rw [List.mem_singleton] at he
        exact Or.inl ⟨_, he⟩)
    exact hI e he

theorem chainOfMode_cases (m : Int) (c : ChainSpec) (h : chainOfMode m = some c) :
    (m = 1 ∧ c = specXSS) ∨ (m = 2 ∧ c = specSQLi) ∨ (m = 3 ∧ c = specLFI) ∨
    (m = 4 ∧ c = specSSRF) ∨ (m = 5 ∧ c = specRedirect) ∨ (m = 6 ∧ c = specSensitive) ∨
    (m = 7 ∧ c = specCMS) ∨ (m = 8 ∧ c = specRCE) := by
  unfold chainOfMode at h
  split_ifs at h with h1 h2 h3 h4 h5 h6 h7 h8 <;> simp only [Option.some.injEq] at h <;>
    subst h <;> simp [*]

/-- The chain of mode `m` is the chain that the `switch` of `RunModes` runs for `m`. -/
theorem runModesStep_chainOfMode (os : OS σ) (target : String) (speed : Int)
    (st : RunState σ) (m : Int) (c : ChainSpec) (h : chainOfMode m = some c) :
    runModesStep os target speed st m = noteTools st (runChain os c target speed st.world) := by
  rcases chainOfMode_cases m c h with h | h | h | h | h | h | h | h <;>
    obtain ⟨rfl, rfl⟩ := h <;> rfl

end ScanList

/-! ## C6: the argument vector of nuclei -/

section NucleiArgs

variable {σ : Type}

/-- C6, amended. For every mode 1-8, every chosen list and every speed, when nuclei is
invoked its argument vector is exactly, in this order: -l and the list, then (XSS only)
--severity medium,high,critical, then -tags and the tags of the mode, then -o and
nuclei.json in the results directory, then -c and the speed when the speed is positive;
modes 2-8 have no --severity argument. -/
theorem nuclei_argv (os : OS σ) (w : σ) (target : String) (speed : Int)
    (m : Int) (c : ChainSpec) (hm : chainOfMode m = some c)
    (w0 : σ) (args : List String) (err : Option String)
    (he : Event.exec w0 "nuclei" args err ∈ (runChain os c target speed w).trace) :
    args = ["-l", c.chosenList os w target speed] ++
      (if m = 1 then ["--severity", "medium,high,critical"] else []) ++
      ["-tags", specTagsOfMode m, "-o",
        Go.filepathJoin [buildModeResultsDir os w c.mode (extractDomain target),
          "nuclei.json"]] ++
      (if speed > 0 then ["-c", Go.sprintInt speed] else []) := by
  rcases runChain_trace_allowed os c target speed w _ he with
    ⟨l, hl⟩ | ⟨s, name, args', tool, err', heq, hA⟩
  · exact absurd hl (by simp)
  · simp only [Event.exec.injEq] at heq
    obtain ⟨_, hname, hargs, _⟩ := heq
    subst hargs
    cases hA with
    | nuclei ht hl hw =>
      rcases chainOfMode_cases m c hm with h | h | h | h | h | h | h | h <;>
        obtain ⟨rfl, rfl⟩ := h <;> rfl
    | _ => exact absurd hname (by decide)

/-- Witness of the amended C6: the nuclei invocation of the SQLi chain (mode 2) on
`https://a.test` at speed 10 in the concrete world with every tool on PATH. -/
theorem nuclei_argv_witness :
    ["-l", "/tmp/BUGx-sqli-a.test-1/hosts.txt", "-tags", "sqli", "-o",
        "/home/u/BUGx/results/sqli/a.test/nuclei.json", "-c", "10"] =
      ["-l", specSQLi.chosenList (simOS [] false) ⟨allTools, []⟩ "https://a.test" 10] ++
      (if (2 : Int) = 1 then ["--severity", "medium,high,critical"] else []) ++
      ["-tags", specTagsOfMode 2, "-o",
        Go.filepathJoin [buildModeResultsDir (simOS [] false) ⟨allTools, []⟩ specSQLi.mode
          (extractDomain "https://a.test"), "nuclei.json"]] ++
      (if (10 : Int) > 0 then ["-c", Go.sprintInt 10] else []) :=
  nuclei_argv (simOS [] false) ⟨allTools, []⟩ "https://a.test" 10 2 specSQLi (by decide)
    ⟨allTools, ["/tmp/BUGx-sqli-a.test-1/subs.txt", "/tmp/BUGx-sqli-a.test-1/hosts.txt"]⟩
    _ none (by decide)

/-- Counterexample to C6 as stated: in the XSS chain on `https://a.test` at speed 10
nuclei is run with `--severity medium,high,critical` before `-tags xss`, which is not
the argument vector in the order of the claim. -/
theorem nuclei_argv_xss_order :
    Event.exec
        ⟨allTools, ["/tmp/BUGx-xss-a.test-1/subs.txt", "/tmp/BUGx-xss-a.test-1/hosts.txt"]⟩
        "nuclei"
        ["-l", "/tmp/BUGx-xss-a.test-1/hosts.txt", "--severity", "medium,high,critical",
          "-tags", "xss", "-o", "/home/u/BUGx/results/xss/a.test/nuclei.json", "-c", "10"]
        none ∈
      (runXSSChain (simOS [] false) "https://a.test" 10 ⟨allTools, []⟩).trace ∧
    ["-l", "/tmp/BUGx-xss-a.test-1/hosts.txt", "--severity", "medium,high,critical",
        "-tags", "xss", "-o", "/home/u/BUGx/results/xss/a.test/nuclei.json", "-c", "10"] ≠
      claimedNucleiArgs "/tmp/BUGx-xss-a.test-1/hosts.txt"
        ["--severity", "medium,high,critical"] (specTagsOfMode 1)
        "/home/u/BUGx/results/xss/a.test/nuclei.json" 10 := by
  decide

end NucleiArgs

/-! ## C7: a step whose input is missing -/

section MissingInput

variable {σ : Type}

end MissingInput

/-! ## C11: `normalizeTarget` -/

theorem rdropWhile_trimSpaceChars (l : List Char) :
    (Go.trimSpaceChars l).rdropWhile Go.isSpace = Go.trimSpaceChars l := by
  rw [List.rdropWhile_eq_self_iff]
  intro hl
  have hsuf : Go.trimSpaceChars l <:+ l.rdropWhile Go.isSpace := List.dropWhile_suffix _
  have hr : l.rdropWhile Go.isSpace ≠ [] := by
    intro h
    apply hl
    unfold Go.trimSpaceChars
    rw [h]
    rfl
  rw [hsuf.getLast hl]
  exact List.rdropWhile_last_not Go.isSpace l hr

theorem dropWhile_trimSpaceChars (l : List Char) :
    (Go.trimSpaceChars l).dropWhile Go.isSpace = Go.trimSpaceChars l :=
  List.dropWhile_idempotent Go.isSpace _

/-- Trimming a trimmed text changes nothing. -/
theorem trimSpaceChars_idem (l : List Char) :
    Go.trimSpaceChars (Go.trimSpaceChars l) = Go.trimSpaceChars l := by
  have e : ∀ m, Go.trimSpaceChars m = (m.rdropWhile Go.isSpace).dropWhile Go.isSpace :=
    fun _ => rfl
  rw [e (Go.trimSpaceChars l), rdropWhile_trimSpaceChars, dropWhile_trimSpaceChars]

theorem trimSpace_idem (s : String) : Go.trimSpace (Go.trimSpace s) = Go.trimSpace s := by
  unfold Go.trimSpace
  simp only []
  rw [trimSpaceChars_idem]

/-- A text put after `https://` stays trimmed when it was trimmed and not empty. -/
theorem trimSpaceChars_https (l : List Char) (hl : Go.trimSpaceChars l ≠ []) :
    Go.trimSpaceChars ("https://".data ++ Go.trimSpaceChars l) =
      "https://".data ++ Go.trimSpaceChars l := by
  have e : ∀ m, Go.trimSpaceChars m = (m.rdropWhile Go.isSpace).dropWhile Go.isSpace :=
    fun _ => rfl
  have h1 : ("https://".data ++ Go.trimSpaceChars l).rdropWhile Go.isSpace =
      "https://".data ++ Go.trimSpaceChars l := by
    rw [List.rdropWhile_eq_self_iff]
    intro hne
    rw [List.getLast_append_of_ne_nil hl]
    have h2 := rdropWhile_trimSpaceChars l
    rw [List.rdropWhile_eq_self_iff] at h2
    exact h2 hl
  rw [e ("https://".data ++ Go.trimSpaceChars l), h1]
  rfl

theorem hasPrefix_append (p t : String) : Go.hasPrefix (p ++ t) p = true := by
  unfold Go.hasPrefix
  rw [List.isPrefixOf_iff_prefix, String.data_append]
  exact List.prefix_append _ _

/-- C11. For every string x, `normalizeTarget x` is the empty string or begins with
`http://` or `https://`, and `normalizeTarget (normalizeTarget x) = normalizeTarget x`. -/
theorem normalizeTarget_shape_idempotent (x : String) :
    (normalizeTarget x = "" ∨ Go.hasPrefix (normalizeTarget x) "http://" = true ∨
      Go.hasPrefix (normalizeTarget x) "https://" = true) ∧
    normalizeTarget (normalizeTarget x) = normalizeTarget x := by
  by_cases h0 : Go.trimSpace x = ""
  · have hx : normalizeTarget x = "" := by simp [normalizeTarget, h0]
    rw [hx]
    exact ⟨Or.inl rfl, by decide⟩
  · by_cases hp : (Go.hasPrefix (Go.trimSpace x) "http://" ||
        Go.hasPrefix (Go.trimSpace x) "https://") = true
    · have hx : normalizeTarget x = Go.trimSpace x := by simp [normalizeTarget, h0, hp]
      rw [hx]
      constructor
      · rw [Bool.or_eq_true] at hp
        exact Or.inr hp
      · unfold normalizeTarget
        simp only [trimSpace_idem, h0, hp, if_true, if_false]
    · have hx : normalizeTarget x = "https://" ++ Go.trimSpace x := by
        simp [normalizeTarget, h0, hp]
      have h0' : Go.trimSpaceChars x.data ≠ [] := by
        intro h
        apply h0
        unfold Go.trimSpace
        rw [h]
      have ht : Go.trimSpace ("https://" ++ Go.trimSpace x) = "https://" ++ Go.trimSpace x := by
        apply String.ext
        show Go.trimSpaceChars ("https://" ++ Go.trimSpace x).data = _
        rw [String.data_append]
        exact trimSpaceChars_https x.data h0'
      have hne : "https://" ++ Go.trimSpace x ≠ "" := by
        intro h
        have := congrArg String.data h
        simp [String.data_append] at this
      have hpre := hasPrefix_append "https://" (Go.trimSpace x)
      rw [hx]
      constructor
      · exact Or.inr (Or.inr hpre)
      · unfold normalizeTarget
        simp only [ht, hne, hpre, Bool.or_true, if_true, if_false]

/-! ## C12, C13, C14: `extractDomain` -/

/-- Cutting at the index that `strings.Index` returns keeps the characters before the
first occurrence. -/
theorem take_indexChar (c : Char) (s : List Char) :
    (match Go.indexChar s c with
      | some i => s.take i
      | none => s) = s.takeWhile (fun d => decide (d ≠ c)) := by
  induction s with
  | nil => rfl
  | cons d ds ih =>
    by_cases hd : d = c
    · simp [Go.indexChar, hd, List.takeWhile]
    · cases hi : Go.indexChar ds c with
      | none =>
        rw [hi] at ih
        simp only [Go.indexChar, hd, if_false, hi, Option.map_none']
        simp only [List.takeWhile, hd, ne_eq, not_false_eq_true, decide_True]
        exact congrArg (List.cons d) ih
      | some i =>
        rw [hi] at ih
        simp only [Go.indexChar, hd, if_false, hi, Option.map_some']
        simp only [List.takeWhile, hd, ne_eq, not_false_eq_true, decide_True, List.take_succ_cons]
        exact congrArg (List.cons d) ih

theorem stripPortAndPath_eq (s : String) :
    stripPortAndPath s =
      Go.trimSpace (String.mk
        ((s.data.takeWhile (fun d => decide (d ≠ '/'))).takeWhile
          (fun d => decide (d ≠ ':')))) := by
  unfold stripPortAndPath
  simp only []
  rw [take_indexChar '/' s.data, take_indexChar ':']

theorem cutChars_http (x : List Char) :
    Go.cutChars "://".data ("http://".data ++ x) = some ("http".data, x) := by
  show Go.cutChars [':', '/', '/'] ('h' :: 't' :: 't' :: 'p' :: ':' :: '/' :: '/' :: x) = _
  simp [Go.cutChars, List.isPrefixOf]

theorem cutChars_https (x : List Char) :
    Go.cutChars "://".data ("https://".data ++ x) = some ("https".data, x) := by
  show Go.cutChars [':', '/', '/']
    ('h' :: 't' :: 't' :: 'p' :: 's' :: ':' :: '/' :: '/' :: x) = _
  simp [Go.cutChars, List.isPrefixOf]

theorem hasPrefix_data (s p : String) (h : Go.hasPrefix s p = true) :
    ∃ x, s.data = p.data ++ x := by
  unfold Go.hasPrefix at h
  rw [List.isPrefixOf_iff_prefix] at h
  obtain ⟨x, hx⟩ := h
  exact ⟨x, hx.symm⟩

/-- What `extractDomain` computes, by the scheme of the trimmed input. -/
theorem extractDomain_eq (raw : String) :
    extractDomain raw =
      if Go.hasPrefix (Go.trimSpace raw) "http://" = true then
        stripPortAndPath (String.mk ((Go.trimSpace raw).data.drop 7))
      else if Go.hasPrefix (Go.trimSpace raw) "https://" = true then
        stripPortAndPath (String.mk ((Go.trimSpace raw).data.drop 8))
      else stripPortAndPath (Go.trimSpace raw) := by
  unfold extractDomain
  simp only []
  by_cases h0 : Go.trimSpace raw = ""
  · rw [h0]
    decide
  · simp only [h0, if_false]
    by_cases h1 : Go.hasPrefix (Go.trimSpace raw) "http://" = true
    · obtain ⟨x, hx⟩ := hasPrefix_data _ _ h1
      simp only [h1, Bool.not_true, Bool.false_and, Bool.false_eq_true, if_false, if_true]
      unfold Go.splitN2
      rw [hx, cutChars_http]
      simp only []
      congr 2
    · by_cases h2 : Go.hasPrefix (Go.trimSpace raw) "https://" = true
      · obtain ⟨x, hx⟩ := hasPrefix_data _ _ h2
        simp only [h1, h2, Bool.not_true, Bool.and_false, Bool.false_eq_true, if_false, if_true]
        unfold Go.splitN2
        rw [hx, cutChars_https]
        simp only []
        congr 2
      · simp [h1, h2]

/-- The reference definition, in terms of `stripPortAndPath`. -/
theorem extractHostRef_eq (raw : String) :
    extractHostRef raw =
      match Go.cutChars "://".data (Go.trimSpace raw).data with
      | some (_, after) => stripPortAndPath (String.mk after)
      | none => stripPortAndPath (Go.trimSpace raw) := by
  unfold extractHostRef
  simp only []
  cases Go.cutChars "://".data (Go.trimSpace raw).data with
  | none => simp only [stripPortAndPath_eq]
  | some p => simp only [stripPortAndPath_eq]

/-- C12, amended. For every input string that, once trimmed, begins with `http://` or
`https://` or does not contain `://`, `extractDomain` returns the value of the
reference definition (trim; keep what follows the first `://`; drop everything from the
first `/`; then from the first `:`; trim).  For an input that does not begin with
`http://` or `https://` the scheme is not removed: the result is the trimmed input cut
at its first `/`, then at its first `:`, and trimmed. -/
theorem extractDomain_matches_reference (raw : String) :
    ((Go.hasPrefix (Go.trimSpace raw) "http://" = true ∨
        Go.hasPrefix (Go.trimSpace raw) "https://" = true ∨
        Go.cutChars "://".data (Go.trimSpace raw).data = none) →
      extractDomain raw = extractHostRef raw) ∧
    ((Go.hasPrefix (Go.trimSpace raw) "http://" = false ∧
        Go.hasPrefix (Go.trimSpace raw) "https://" = false) →
      extractDomain raw =
        Go.trimSpace (String.mk
          (((Go.trimSpace raw).data.takeWhile (fun d => decide (d ≠ '/'))).takeWhile
            (fun d => decide (d ≠ ':'))))) := by
  constructor
  · intro h
    rw [extractDomain_eq, extractHostRef_eq]
    by_cases h1 : Go.hasPrefix (Go.trimSpace raw) "http://" = true
    · obtain ⟨x, hx⟩ := hasPrefix_data _ _ h1
      simp only [h1, if_true]
      rw [hx, cutChars_http]
      rfl
    · by_cases h2 : Go.hasPrefix (Go.trimSpace raw) "https://" = true
      · obtain ⟨x, hx⟩ := hasPrefix_data _ _ h2
        simp only [h1, h2, if_true, if_false]
        rw [hx, cutChars_https]
        rfl
      · simp only [h1, h2, if_false]
        rcases h with h | h | h
        · exact absurd h h1
        · exact absurd h h2
        · rw [h]
          simp
  · rintro ⟨h1, h2⟩
    rw [extractDomain_eq, ← stripPortAndPath_eq]
    simp [h1, h2]

/-- Witness of the amended C12 on the input ` https://a.test:80/x `. -/
theorem extractDomain_matches_reference_witness :
    extractHostRef " https://a.test:80/x " = "a.test" ∧
    extractDomain " https://a.test:80/x " = extractHostRef " https://a.test:80/x " :=
  ⟨by decide,
   (extractDomain_matches_reference " https://a.test:80/x ").1 (Or.inr (Or.inl (by decide)))⟩

/-- Counterexample to C12 as stated: on `ftp://h/x` the reference definition removes
the scheme and gives `h`, while `extractDomain`, which only knows the schemes `http`
and `https`, cuts at the first `/` and then at the first `:` and gives `ftp`. -/
theorem extractDomain_other_scheme :
    extractDomain "ftp://h/x" = "ftp" ∧ extractHostRef "ftp://h/x" = "h" ∧
    extractDomain "ftp://h/x" ≠ extractHostRef "ftp://h/x" := by
  decide

theorem mem_trimSpaceChars (c : Char) (l : List Char) (h : c ∈ Go.trimSpaceChars l) :
    c ∈ l :=
  (List.rdropWhile_prefix Go.isSpace l).subset ((List.dropWhile_sublist Go.isSpace).subset h)

theorem extractDomain_cases (raw : String) :
    extractDomain raw = "" ∨ ∃ y, extractDomain raw = stripPortAndPath y := by
  rw [extractDomain_eq]
  split_ifs
  · exact Or.inr ⟨_, rfl⟩
  · exact Or.inr ⟨_, rfl⟩
  · exact Or.inr ⟨_, rfl⟩

theorem stripPortAndPath_no_sep (y : String) :
    '/' ∉ (stripPortAndPath y).data ∧ ':' ∉ (stripPortAndPath y).data := by
  rw [stripPortAndPath_eq]
  constructor
  · intro h
    have h1 := mem_trimSpaceChars _ _ h
    have h2 := (List.takeWhile_prefix _).subset h1
    have h3 := List.mem_takeWhile_imp h2
    simp at h3
  · intro h
    have h1 := mem_trimSpaceChars _ _ h
    have h3 := List.mem_takeWhile_imp h1
    simp at h3

/-- C13. For every input string, the host returned by `extractDomain` contains no `/`
character and no `:` character. -/
theorem extractDomain_no_slash_colon (raw : String) :
    '/' ∉ (extractDomain raw).data ∧ ':' ∉ (extractDomain raw).data := by
  rcases extractDomain_cases raw with h | ⟨y, h⟩
  · rw [h]
    decide
  · rw [h]
    exact stripPortAndPath_no_sep y

/-- C14, amended. For every input string, the host returned by `extractDomain` has no
white space at its ends: trimming it changes nothing, and neither its first nor its
last character is a white space character.  White space inside the host is kept. -/
theorem extractDomain_trimmed (raw : String) :
    Go.trimSpace (extractDomain raw) = extractDomain raw ∧
    (∀ c, (extractDomain raw).data.head? = some c → Go.isSpace c = false) ∧
    (∀ c, (extractDomain raw).data.getLast? = some c → Go.isSpace c = false) := by
  have key : ∀ l : List Char, Go.trimSpaceChars l = l →
      (∀ c, l.head? = some c → Go.isSpace c = false) ∧
      (∀ c, l.getLast? = some c → Go.isSpace c = false) := by
    intro l hl
    constructor
    · intro c hc
      have h1 := List.head?_dropWhile_not Go.isSpace (l.rdropWhile Go.isSpace)
      have e : (l.rdropWhile Go.isSpace).dropWhile Go.isSpace = l := hl
      rw [e, hc] at h1
      exact h1
    · intro c hc
      have h2 : l.rdropWhile Go.isSpace = l := by
        rw [← hl]
        exact rdropWhile_trimSpaceChars l
      rw [List.rdropWhile_eq_self_iff] at h2
      have hne : l ≠ [] := by
        intro h
        rw [h] at hc
        simp at hc
      have h3 := h2 hne
      rw [List.getLast?_eq_getLast l hne] at hc
      rw [← Option.some.inj hc]
      simpa using h3
  have ht : Go.trimSpace (extractDomain raw) = extractDomain raw := by
    rcases extractDomain_cases raw with h | ⟨y, h⟩
    · rw [h]
      decide
    · rw [h]
      unfold stripPortAndPath
      simp only []
      exact trimSpace_idem _
  refine ⟨ht, key _ ?_⟩
  have := congrArg String.data ht
  exact this

/-- Witness of the amended C14 on the input ` a b `, whose host begins with `a`. -/
theorem extractDomain_trimmed_witness :
    (extractDomain " a b ").data.head? = some 'a' ∧ Go.isSpace 'a' = false :=
  ⟨by decide, (extractDomain_trimmed " a b ").2.1 'a' (by decide)⟩

/-- Counterexample to C14 as stated: the host extracted from `a b` is `a b`, which holds
a space between its ends. -/
theorem extractDomain_inner_space :
    extractDomain "a b" = "a b" ∧ ' ' ∈ (extractDomain "a b").data ∧ Go.isSpace ' ' = true := by
  decide

/-! ## C15, C16: `sanitizeForPath` -/

theorem sanitizeChar_eq (c : Char) :
    sanitizeChar c = if c ∈ nineChars then '_' else c := by
  unfold sanitizeChar nineChars
  simp only [List.mem_cons, List.mem_singleton, List.not_mem_nil, or_false]

theorem sanitizeChar_not_mem (c : Char) : sanitizeChar c ∉ nineChars := by
  rw [sanitizeChar_eq]
  split_ifs with h
  · decide
  · exact h

/-- C15. For every string s, `sanitizeForPath s` contains none of the nine characters
`/ \ : * ? " < > |`; when the trimmed input is not empty the result is the trimmed
input with each occurrence of one of them replaced by `_`. -/
theorem sanitizeForPath_no_special (s : String) :
    (∀ c ∈ (sanitizeForPath s).data, c ∉ nineChars) ∧
    (Go.trimSpace s ≠ "" →
      (sanitizeForPath s).data =
        (Go.trimSpace s).data.map (fun c => if c ∈ nineChars then '_' else c)) := by
  constructor
  · intro c hc
    unfold sanitizeForPath at hc
    simp only [] at hc
    split_ifs at hc with h
    · revert c
      decide
    · obtain ⟨d, _, rfl⟩ := List.mem_map.mp hc
      exact sanitizeChar_not_mem d
  · intro h
    unfold sanitizeForPath
    simp only [h, if_false]
    apply List.map_congr_left
    intro c _
    exact sanitizeChar_eq c

/-- Witness of C15 on the input ` a/b:c? `. -/
theorem sanitizeForPath_no_special_witness :
    sanitizeForPath " a/b:c? " = "a_b_c_" ∧
    (sanitizeForPath " a/b:c? ").data =
      (Go.trimSpace " a/b:c? ").data.map (fun c => if c ∈ nineChars then '_' else c) :=
  ⟨by decide, (sanitizeForPath_no_special " a/b:c? ").2 (by decide)⟩

theorem sanitizeChar_eq_plain (c x : Char) (hx : x ≠ '_') (h : sanitizeChar c = x) : c = x := by
  rw [sanitizeChar_eq] at h
  split_ifs at h
  · exact absurd h.symm hx
  · exact h

theorem map_sanitizeChar_eq (l : List Char) :
    ∀ t : List Char, (∀ x ∈ t, x ≠ '_') → l.map sanitizeChar = t → l = t := by
  induction l with
  | nil => intro t _ h; exact h
  | cons c l ih =>
    intro t ht h
    cases t with
    | nil => simp at h
    | cons x t =>
      simp only [List.map_cons, List.cons.injEq] at h
      rw [sanitizeChar_eq_plain c x (ht x (List.mem_cons_self _ _)) h.1,
        ih t (fun y hy => ht y (List.mem_cons_of_mem _ hy)) h.2]

/-- C16, amended. For every string s, `sanitizeForPath s` equals the literal `target`
if and only if s is empty after trimming white space or s is, after trimming, the text
`target` itself. -/
theorem sanitizeForPath_eq_target_iff (s : String) :
    sanitizeForPath s = "target" ↔ (Go.trimSpace s = "" ∨ Go.trimSpace s = "target") := by
  constructor
  · intro h
    by_cases h0 : Go.trimSpace s = ""
    · exact Or.inl h0
    · right
      unfold sanitizeForPath at h
      simp only [h0, if_false] at h
      have hd := congrArg String.data h
      simp only [] at hd
      apply String.ext
      exact map_sanitizeChar_eq _ _ (by decide) hd
  · rintro (h | h)
    · simp [sanitizeForPath, h]
    · unfold sanitizeForPath
      simp only []
      rw [h]
      decide

/-- Counterexample to C16 as stated: the input `target` is not empty after trimming and
`sanitizeForPath` returns it unchanged, the literal `target`. -/
theorem sanitizeForPath_target_host :
    sanitizeForPath "target" = "target" ∧ Go.trimSpace "target" ≠ "" := by
  decide

/-! ## C17: the results directory -/

theorem joinDir_plain_last (Y M : List Char) (hY : Y ≠ []) (hM : plainName M = true) :
    joinDir (Y ++ '/' :: M) = Go.cleanChars (Y ++ '/' :: M) ++ ['/'] := by
  have hplain := hM
  simp only [plainName, Bool.and_eq_true, decide_eq_true_eq] at hM
  obtain ⟨⟨⟨h1, h2⟩, _⟩, _⟩ := hM
  cases Y with
  | nil => exact absurd rfl hY
  | cons c cs =>
    have hs : Go.splitChars '/' (c :: cs ++ '/' :: M) = Go.splitChars '/' (c :: cs) ++ [M] := by
      rw [splitChars_append_sep, splitChars_no_sep '/' M h2]
    have hf : ∀ rooted : Bool,
        Go.cleanElems rooted (Go.splitChars '/' (c :: cs) ++ [M]) =
          Go.cleanElems rooted (Go.splitChars '/' (c :: cs)) ++ [M] := by
      intro rooted
      simp only [Go.cleanElems, List.foldl_append, List.foldl_cons, List.foldl_nil]
      rw [cleanPush_plain _ _ _ hplain]
      simp
    simp only [Go.cleanChars, List.cons_append, joinDir]
    rw [← List.cons_append, hs, hf, slashJoin_concat]
    by_cases hc : c = '/'
    · simp [hc]
    · by_cases h5 : Go.cleanElems false (Go.splitChars '/' (c :: cs)) = []
      · simp [hc, h5, h1]
      · simp [hc, h5, h1]

/-- For a plain lower-cased mode name and a host whose sanitised form is a plain name
(not empty, without `/`, neither `.` nor `..`), the results directory is the directory
`<base>/BUGx/results/<mode>` followed by `/` and the sanitised host. -/
theorem buildModeResultsDir_plain_host {σ : Type} (os : OS σ) (w : σ) (mode domain : String)
    (hm : mode ≠ "") (hM : plainName (Go.toLower mode).data = true)
    (hH : plainName (sanitizeForPath domain).data = true) :
    (buildModeResultsDir os w mode domain).data =
      (Go.filepathJoin [resultsBase os w, "BUGx", "results", Go.toLower mode]).data ++
        '/' :: (sanitizeForPath domain).data := by
  have hB : resultsBase os w ≠ "" := by
    unfold resultsBase
    simp only []
    split_ifs with h
    · decide
    · exact h
  have e1 : buildModeResultsDir os w mode domain =
      Go.filepathJoin [resultsBase os w, "BUGx", "results", Go.toLower mode,
        sanitizeForPath domain] := by
    unfold buildModeResultsDir resultsBase
    simp only [hm, if_false]
  have hX : resultsBase os w ++ "/" ++ "BUGx" ++ "/" ++ "results" ++ "/" ++ Go.toLower mode ≠ "" := by
    intro h
    have := congrArg String.data h
    simp [String.data_append] at this
  have e2 : Go.filepathJoin [resultsBase os w, "BUGx", "results", Go.toLower mode,
        sanitizeForPath domain] =
      Go.filepathJoin [resultsBase os w ++ "/" ++ "BUGx" ++ "/" ++ "results" ++ "/" ++
        Go.toLower mode, sanitizeForPath domain] := by
    unfold Go.filepathJoin
    simp only [List.dropWhile, hB, hX, decide_False]
    rfl
  have e3 : Go.filepathJoin [resultsBase os w, "BUGx", "results", Go.toLower mode] =
      String.mk (Go.cleanChars (resultsBase os w ++ "/" ++ "BUGx" ++ "/" ++ "results" ++ "/" ++
        Go.toLower mode).data) := by
    unfold Go.filepathJoin
    simp only [List.dropWhile, hB, decide_False]
    rfl
  have e4 : (resultsBase os w ++ "/" ++ "BUGx" ++ "/" ++ "results" ++ "/" ++
        Go.toLower mode).data =
      (resultsBase os w ++ "/" ++ "BUGx" ++ "/" ++ "results").data ++
        '/' :: (Go.toLower mode).data := by
    simp [String.data_append]
  have hY : (resultsBase os w ++ "/" ++ "BUGx" ++ "/" ++ "results").data ≠ [] := by
    simp [String.data_append]
  rw [e1, e2, filepathJoin_plain _ _ hH, e3, e4, joinDir_plain_last _ _ hY hM]
  simp

/-- C17, the code at the failing input. The target `..` is normalised to `https://..`,
its host is `..`, and `sanitizeForPath` lets it through; `filepath.Join` then cleans it
away together with the mode, so that the results directory of the XSS chain is
`/home/u/BUGx/results` (its last component is `results`, its parent `/home/u/BUGx`)
and nuclei writes `/home/u/BUGx/results/nuclei.json`, while for the host `a.test` the
directory is `/home/u/BUGx/results/xss/a.test`. -/
theorem buildModeResultsDir_dot_dot :
    normalizeTarget ".." = "https://.." ∧
    extractDomain "https://.." = ".." ∧
    sanitizeForPath ".." = ".." ∧
    buildModeResultsDir (simOS [] false) ⟨allTools, []⟩ "xss" ".." = "/home/u/BUGx/results" ∧
    buildModeResultsDir (simOS [] false) ⟨allTools, []⟩ "xss" "a.test" =
      "/home/u/BUGx/results/xss/a.test" ∧
    Event.exec ⟨allTools, ["/tmp/BUGx-xss-..-1/subs.txt", "/tmp/BUGx-xss-..-1/hosts.txt"]⟩
        "nuclei"
        ["-l", "/tmp/BUGx-xss-..-1/hosts.txt", "--severity", "medium,high,critical",
          "-tags", "xss", "-o", "/home/u/BUGx/results/nuclei.json", "-c", "10"] none ∈
      (runXSSChain (simOS [] false) "https://.." 10 ⟨allTools, []⟩).trace := by
  decide

/-! ## C18: `escapeShell` -/

theorem replaceAllChar_quote (l : List Char) :
    Go.replaceAllChar l quoteChar [quoteChar, '\\', quoteChar, quoteChar] = quoteEscaped l := by
  induction l with
  | nil => rfl
  | cons c l ih =>
    have h : Go.replaceAllChar (c :: l) quoteChar [quoteChar, '\\', quoteChar, quoteChar] =
        (if c = quoteChar then [quoteChar, '\\', quoteChar, quoteChar] else [c]) ++
          Go.replaceAllChar l quoteChar [quoteChar, '\\', quoteChar, quoteChar] := by
      simp [Go.replaceAllChar, List.flatMap_cons]
    rw [h, ih]
    by_cases hc : c = quoteChar
    · simp [quoteEscaped, hc]
    · simp [quoteEscaped, hc]

/-- The characters of `escapeShell s`, for every `s`: a quote, the escaped text, a
quote. -/
theorem escapeShell_chars (s : String) :
    (escapeShell s).data = quoteChar :: (quoteEscaped s.data ++ [quoteChar]) := by
  rw [escapeShell_data, replaceAllChar_quote]

/-- C18. `escapeShell ""` is the two-character string made of two single quotes and,
for every non-empty s, `escapeShell s` is a single quote, followed by s with every
single quote replaced by the four characters quote, backslash, quote, quote, followed
by a single quote. -/
theorem escapeShell_spec :
    escapeShell "" = String.mk [quoteChar, quoteChar] ∧
    (escapeShell "").length = 2 ∧
    ∀ s : String, s ≠ "" →
      escapeShell s = String.mk (quoteChar :: (quoteEscaped s.data ++ [quoteChar])) := by
  refine ⟨by decide, by decide, ?_⟩
  intro s _
  apply String.ext
  exact escapeShell_chars s

/-- Witness of C18 on the input `it's`. -/
theorem escapeShell_spec_witness :
    escapeShell "it\x27s" = "\x27it\x27\\\x27\x27s\x27" ∧
    escapeShell "it\x27s" =
      String.mk (quoteChar :: (quoteEscaped "it\x27s".data ++ [quoteChar])) :=
  ⟨by decide, escapeShell_spec.2.2 "it\x27s" (by decide)⟩

/-! ## C19: `chooseFirstExisting` -/

section FirstExisting

variable {σ : Type}

theorem chooseFirstExisting_find (os : OS σ) (w : σ) (ps : List String) :
    chooseFirstExisting os w ps = (ps.find? (fun p => fileExists os w p)).getD "" := by
  induction ps with
  | nil => rfl
  | cons p ps ih =>
    unfold chooseFirstExisting
    by_cases h : fileExists os w p = true
    · simp [h]
    · simp [h, ih]

/-- C19. For every list of paths and every file-existence state, `chooseFirstExisting`
returns the first path of the list for which `fileExists` is true, and the empty string
when `fileExists` is false for every path (also for the empty list); the empty string
is never reported as existing. -/
theorem chooseFirstExisting_first (os : OS σ) (w : σ) (ps : List String) :
    chooseFirstExisting os w ps = (ps.find? (fun p => fileExists os w p)).getD "" ∧
    (∀ pre p post, ps = pre ++ p :: post → (∀ q ∈ pre, fileExists os w q = false) →
      fileExists os w p = true → chooseFirstExisting os w ps = p) ∧
    ((∀ p ∈ ps, fileExists os w p = false) → chooseFirstExisting os w ps = "") ∧
    chooseFirstExisting os w [] = "" ∧
    fileExists os w "" = false := by
  refine ⟨chooseFirstExisting_find os w ps, ?_, ?_, rfl, by simp [fileExists]⟩
  · intro pre p post hps hpre hp
    subst hps
    induction pre with
    | nil => simp [chooseFirstExisting, hp]
    | cons q pre ih =>
      have hq : fileExists os w q = false := hpre q (List.mem_cons_self _ _)
      simp only [List.cons_append, chooseFirstExisting, hq, Bool.false_eq_true, if_false]
      exact ih (fun r hr => hpre r (List.mem_cons_of_mem _ hr))
  · intro h
    induction ps with
    | nil => rfl
    | cons p ps ih =>
      have hp : fileExists os w p = false := h p (List.mem_cons_self _ _)
      simp only [chooseFirstExisting, hp, Bool.false_eq_true, if_false]
      exact ih (fun r hr => h r (List.mem_cons_of_mem _ hr))

/-- Witness of C19: in the concrete world where only `b` and `c` exist, the first
existing path of `a`, the empty path, `b`, `c` is `b`. -/
theorem chooseFirstExisting_first_witness :
    chooseFirstExisting (simOS [] false) ⟨[], ["c", "b", ""]⟩ ["a", "", "b", "c"] = "b" :=
  (chooseFirstExisting_first (simOS [] false) ⟨[], ["c", "b", ""]⟩ ["a", "", "b", "c"]).2.1
    ["a", ""] "b" ["c"] rfl (by decide) (by decide)

end FirstExisting

/-! ## C20: the shell reads `escapeShell s` as the one word `s` -/

theorem shellRead_open_quote (cs : List Char) (word : Option (List Char))
    (acc : List (List Char)) :
    shellRead (quoteChar :: cs) false word acc = shellRead cs true (some (word.getD [])) acc := by
  cases cs with
  | nil => simp [shellRead]
  | cons d ds => simp [shellRead]

/-- Inside single quotes the shell reads an escaped text up to the closing quote as
the text itself, added to the word in progress. -/
theorem shellRead_quoteEscaped (t : List Char) :
    ∀ (rest word : List Char) (acc : List (List Char)),
      shellRead (quoteEscaped t ++ quoteChar :: rest) true (some word) acc =
        shellRead rest false (some (word ++ t)) acc := by
  induction t with
  | nil =>
    intro rest word acc
    simp [quoteEscaped, shellRead]
  | cons c t ih =>
    intro rest word acc
    have hb : ('\\' : Char) ≠ quoteChar := by decide
    have hn : quoteChar ≠ '\n' := by decide
    by_cases hc : c = quoteChar
    · subst hc
      have e : quoteEscaped (quoteChar :: t) ++ quoteChar :: rest =
          quoteChar :: '\\' :: quoteChar :: quoteChar :: (quoteEscaped t ++ quoteChar :: rest) := by
        simp [quoteEscaped]
      rw [e]
      simp only [shellRead, if_true, hb, hn, if_false, Option.getD_some]
      rw [shellRead_open_quote, ih]
      simp
    · have e : quoteEscaped (c :: t) ++ quoteChar :: rest =
          c :: (quoteEscaped t ++ quoteChar :: rest) := by
        simp [quoteEscaped, hc]
      rw [e]
      simp only [shellRead, hc, if_false, Option.getD_some]
      rw [ih]
      simp

theorem shellRead_escapeShell (s : String) :
    shellRead (escapeShell s).data false none [] = some [s.data] := by
  rw [escapeShell_chars, shellRead_open_quote, shellRead_quoteEscaped]
  simp [shellRead]

/-- C20. For every string s, the POSIX shell reads `escapeShell s` as exactly one word,
equal to s (text between single quotes is literal, a backslash outside quotes makes the
next character literal, adjacent pieces concatenate); hence `escapeShell` is
injective. -/
theorem escapeShell_reads_back :
    (∀ s : String, shellWords (escapeShell s) = some [s]) ∧
    Function.Injective escapeShell := by
  have h : ∀ s : String, shellWords (escapeShell s) = some [s] := by
    intro s
    unfold shellWords
    rw [shellRead_escapeShell]
    rfl
  refine ⟨h, ?_⟩
  intro a b hab
  have h1 := h a
  rw [hab, h b] at h1
  simpa using h1.symm

/-! ## C21: a target without a host -/

section InvalidTarget

variable {σ : Type}

/-- With an empty host a chain prints its opening banner, the message and its closing
banner, and returns `nil` (modes.go 92-98 and the same lines of the other chains). -/
theorem runChain_no_host (os : OS σ) (c : ChainSpec) (target : String) (speed : Int) (w : σ)
    (h : extractDomain target = "") :
    runChain os c target speed w =
      { tools := [], world := w,
        trace := [Event.print c.openBanner,
          Event.print ("[" ++ c.label ++ "] Target tidak valid: " ++ target),
          Event.print c.closeBanner] } := by
  unfold runChain
  rw [if_pos h]

theorem noteTools_no_host (os : OS σ) (c : ChainSpec) (target : String) (speed : Int)
    (w : σ) (st : RunState σ) (h : extractDomain target = "") (hst : Untouched w st) :
    Untouched w (noteTools st (runChain os c target speed st.world)) := by
  obtain ⟨h1, h2, h3⟩ := hst
  rw [runChain_no_host os c target speed st.world h]
  refine ⟨?_, h2, ?_⟩
  · simpa [noteTools] using h1
  · intro e he
    simp only [noteTools, List.mem_append, List.mem_cons, List.mem_singleton,
      List.not_mem_nil, or_false] at he
    rcases he with he | he | he | he
    · exact h3 e he
    · exact ⟨_, he⟩
    · exact ⟨_, he⟩
    · exact ⟨_, he⟩

theorem runModesStep_no_host (os : OS σ) (target : String) (speed : Int) (w : σ)
    (st : RunState σ) (m : Int) (h : extractDomain target = "") (hst : Untouched w st) :
    Untouched w (runModesStep os target speed st m) := by
  cases hc : chainOfMode m with
  | some c =>
    rw [runModesStep_chainOfMode os target speed st m c hc]
    exact noteTools_no_host os c target speed w st h hst
  | none =>
    obtain ⟨h1, h2, h3⟩ := hst
    have hm : m ≠ 1 ∧ m ≠ 2 ∧ m ≠ 3 ∧ m ≠ 4 ∧ m ≠ 5 ∧ m ≠ 6 ∧ m ≠ 7 ∧ m ≠ 8 := by
      unfold chainOfMode at hc
      split_ifs at hc
      exact ⟨by assumption, by assumption, by assumption, by assumption, by assumption,
        by assumption, by assumption, by assumption⟩
    obtain ⟨m1, m2, m3, m4, m5, m6, m7, m8⟩ := hm
    unfold runModesStep
    rw [if_neg m1, if_neg m2, if_neg m3, if_neg m4, if_neg m5, if_neg m6, if_neg m7,
      if_neg m8]
    refine ⟨h1, h2, ?_⟩
    intro e he
    simp only [List.mem_append, List.mem_singleton] at he
    rcases he with he | he
    · exact h3 e he
    · exact ⟨_, he⟩

theorem runModesLoop_no_host (os : OS σ) (target : String) (speed : Int) (w : σ)
    (h : extractDomain target = "") (modes : List Int) :
    ∀ st : RunState σ, Untouched w st →
      Untouched w (modes.foldl (runModesStep os target speed) st) := by
  induction modes with
  | nil => intro st hst; exact hst
  | cons m ms ih =>
    intro st hst
    rw [List.foldl_cons]
    exact ih _ (runModesStep_no_host os target speed w st m h hst)

/-- C21. For every target whose extracted host is empty, in every environment: each of
the eight chain functions returns the empty list, leaves the world as it found it (no
directory is created, nothing is removed) and runs no child process (it only prints);
and for every mode list, also with numbers outside 1-8, and every order in which the
final `range` visits the map, `RunModes` returns the empty list, leaves the world as
it found it and runs no child process. -/
theorem no_host_runs_nothing (os : OS σ) (ord : RangeOrder) (target : String) (speed : Int)
    (w : σ) (h : extractDomain target = "") :
    (∀ r ∈ [runXSSChain os target speed w, runSQLiChain os target speed w,
        runLFIChain os target speed w, runSSRFChain os target speed w,
        runRedirectChain os target speed w, runSensitiveChain os target speed w,
        runCMSChain os target speed w, runRCEChain os target speed w],
      r.tools = [] ∧ r.world = w ∧ ∀ e ∈ r.trace, ∃ line, e = Event.print line) ∧
    (∀ modes : List Int,
      RunModes os ord modes target speed w = [] ∧
      (runModesLoop os modes target speed w).world = w ∧
      ∀ e ∈ (runModesLoop os modes target speed w).trace, ∃ line, e = Event.print line) := by
  constructor
  · have hc : ∀ c : ChainSpec,
        (runChain os c target speed w).tools = [] ∧ (runChain os c target speed w).world = w ∧
        ∀ e ∈ (runChain os c target speed w).trace, ∃ line, e = Event.print line := by
      intro c
      rw [runChain_no_host os c target speed w h]
      refine ⟨rfl, rfl, ?_⟩
      intro e he
      simp only [List.mem_cons, List.mem_singleton, List.not_mem_nil, or_false] at he
      rcases he with he | he | he
      · exact ⟨_, he⟩
      · exact ⟨_, he⟩
      · exact ⟨_, he⟩
    intro r hr
    simp only [List.mem_cons, List.mem_singleton, List.not_mem_nil, or_false] at hr
    rcases hr with hr | hr | hr | hr | hr | hr | hr | hr <;> rw [hr] <;> exact hc _
  · intro modes
    obtain ⟨h1, h2, h3⟩ := runModesLoop_no_host os target speed w h modes
      { used := [], world := w, trace := [] } ⟨rfl, rfl, by simp⟩
    refine ⟨?_, h2, h3⟩
    unfold RunModes
    have hu : (runModesLoop os modes target speed w).used = [] := h1
    rw [hu]
    exact (ord.perm []).eq_nil

/-- The targets `https://` and `https:///path` pass `normalizeTarget` unchanged, are
not empty and have no host; with all six tools installed `RunModes` returns the empty
list for them and leaves the world as it was, where the target `https://a.test`
makes the XSS chain report tools. -/
theorem no_host_runs_nothing_witness :
    normalizeTarget "https://" = "https://" ∧ extractDomain "https://" = "" ∧
    normalizeTarget "https:///path" = "https:///path" ∧ extractDomain "https:///path" = "" ∧
    RunModes (simOS [] false) RangeOrder.backwards [1, 2, 3, 4, 5, 6, 7, 8, 0]
      "https://" 10 ⟨allTools, []⟩ = [] ∧
    (runModesLoop (simOS [] false) [1, 2, 3, 4, 5, 6, 7, 8, 0] "https:///path" 10
      ⟨allTools, []⟩).world = ⟨allTools, []⟩ ∧
    (runXSSChain (simOS [] false) "https:///path" 10 ⟨allTools, []⟩).tools = [] ∧
    (runXSSChain (simOS [] false) "https://a.test" 10 ⟨allTools, []⟩).tools ≠ [] :=
  ⟨by decide, by decide, by decide, by decide,
    ((no_host_runs_nothing (simOS [] false) RangeOrder.backwards "https://" 10
      ⟨allTools, []⟩ (by decide)).2 [1, 2, 3, 4, 5, 6, 7, 8, 0]).1,
    ((no_host_runs_nothing (simOS [] false) RangeOrder.backwards "https:///path" 10
      ⟨allTools, []⟩ (by decide)).2 [1, 2, 3, 4, 5, 6, 7, 8, 0]).2.1,
    ((no_host_runs_nothing (simOS [] false) RangeOrder.backwards "https:///path" 10
      ⟨allTools, []⟩ (by decide)).1 _ (List.mem_cons_self _ _)).1,
    by decide⟩

end InvalidTarget

end BUGx
